import Mathlib

/-!
Verification of the process-backed JSON-RPC bridge of the Playwright MCP
HTTP server (files `playwright-process.ts`, `mcp-handler.ts`,
`tool-interceptor.ts`, `server.ts`).

The stateful TypeScript classes are shallowly embedded as explicit state
records together with step functions; the single-threaded event-loop
execution of the source is modelled by folding a step function over a list
of scheduler events.  JSON payloads are kept abstract (a type parameter
`Val`); `JSON.parse` of the framed stream reader is an abstract parameter
`parse`.
-/

namespace PlaywrightMCP

/-- JSON-RPC identifiers are strings or numbers in the source
(`id: string | number`). -/
inductive RId where
  | str (s : String)
  | num (n : Int)
  deriving DecidableEq, Repr

/-! ## Framed stream reader

Embedding of `PlaywrightProcessManager.processBuffer` together with the
stdout handler of `startProcess` (`this.buffer += text; this.processBuffer()`).
A chunk is a `List Char`; `JSON.parse` is an abstract `parse` function.
-/

/-- ASCII whitespace removed by `String.prototype.trim` (the code points
that actually occur in the newline-delimited protocol stream). -/
def isJsWs (c : Char) : Bool :=
  c = ' ' || c = '\t' || c = '\n' || c = '\r' || c = '\x0b' || c = '\x0c'

/-- `line.trim()` of the source: strip whitespace from both ends. -/
def trimChars (l : List Char) : List Char :=
  ((l.dropWhile isJsWs).reverse.dropWhile isJsWs).reverse

/-- `this.buffer.split("\n")` followed by `lines.pop() || ""`:
returns the complete lines (everything before the last terminator) and the
trailing carry-over fragment, in one pass. -/
def breakLines : List Char → List (List Char) × List Char
  | [] => ([], [])
  | c :: rest =>
    if c = '\n' then
      let p := breakLines rest
      ([] :: p.1, p.2)
    else
      match breakLines rest with
      | ([], frag) => ([], c :: frag)
      | (l :: ls, frag) => ((c :: l) :: ls, frag)

/-- State of the reader: the carry-over buffer, the decoded messages
delivered to `handleMessage` so far, and the trimmed lines that failed
`JSON.parse` and were logged and skipped. -/
structure ReaderState (M : Type) where
  buffer : List Char
  outs : List M
  skipped : List (List Char)
  deriving DecidableEq, Repr

def ReaderState.start {M : Type} : ReaderState M := ⟨[], [], []⟩

/-- Body of the `for (const line of lines)` loop of `processBuffer`:
trim, skip blank lines, `JSON.parse` and deliver, or log and skip. -/
def handleLine {M : Type} (parse : List Char → Option M)
    (st : ReaderState M) (line : List Char) : ReaderState M :=
  let t := trimChars line
  if t = [] then st
  else
    match parse t with
    | some m => { st with outs := st.outs ++ [m] }
    | none => { st with skipped := st.skipped ++ [t] }

/-- One stdout `data` callback: append the chunk to the buffer and run
`processBuffer` (split, keep the incomplete trailing line, handle each
complete line). -/
def processChunk {M : Type} (parse : List Char → Option M)
    (st : ReaderState M) (chunk : List Char) : ReaderState M :=
  let p := breakLines (st.buffer ++ chunk)
  p.1.foldl (handleLine parse) { st with buffer := p.2 }

/-- Feed a whole sequence of chunks, in arrival order. -/
def feedChunks {M : Type} (parse : List Char → Option M)
    (chunks : List (List Char)) : ReaderState M :=
  chunks.foldl (processChunk parse) ReaderState.start

/-- Decode attempt made for one complete line, as a function. -/
def lineDecode {M : Type} (parse : List Char → Option M)
    (l : List Char) : Option M :=
  if trimChars l = [] then none else parse (trimChars l)

/-- The trimmed text logged and dropped for one complete line that fails
to parse (`console.warn("... Failed to parse message:", trimmed)`). -/
def lineSkip {M : Type} (parse : List Char → Option M)
    (l : List Char) : Option (List Char) :=
  if trimChars l = [] then none
  else
    match parse (trimChars l) with
    | some _ => none
    | none => some (trimChars l)

/-! ## Process manager (`PlaywrightProcessManager`)

The class owns: `pendingMessages : Map<string|number, ProcessMessage>`,
`messageIdCounter`, the subprocess handle, `isInitialized` and
`initPromise`.  We embed it as a state record plus a step function over
scheduler events; each event is one atomic synchronous section of the
single-threaded source (a callback body, or the synchronous part of an
async method between two `await`s).  Each caller of the public API is a
token (`Caller`); settling a caller's promise is recorded in a log.
-/

/-- A waiting caller: either an external `sendMessage` caller or the
handshake attempt number `k`'s own bootstrap request (`initialize`'s call
to `sendMessageInternal`). -/
inductive Caller where
  | ext (n : Nat)
  | initOf (k : Nat)
  deriving DecidableEq, Repr

/-- One decoded inbound JSON-RPC document (`handleMessage`'s argument).
`errorMessage = some e` models a present `message.error` whose `.message`
is `e` (`e = ""` when `error.message` is falsy). -/
structure Msg (Val : Type) where
  mid : Option RId
  result : Option Val
  errorMessage : Option String
  method : Option String
  deriving DecidableEq, Repr

/-- How a caller's promise settles. -/
inductive Outcome (Val : Type) where
  | ok (v : Option Val)
  | fail (e : String)
  deriving DecidableEq, Repr

/-- `x || "Unknown error"` applied to an error-message string. -/
def msgOr (e : String) : String := if e = "" then "Unknown error" else e

/-- `handleMessage`'s resolution of a matched record:
`message.error ? reject(error.message || "Unknown error") : resolve(message.result)`. -/
def payloadOf {Val : Type} (m : Msg Val) : Outcome Val :=
  match m.errorMessage with
  | some e => .fail (msgOr e)
  | none => .ok m.result

/-- Template-literal rendering of the exit code (`null` for a signal kill). -/
def exitCodeStr : Option Int → String
  | none => "null"
  | some n => toString n

/-- The message of the error every pending caller is rejected with in the
`exit` handler: only the exit code appears; the signal does not. -/
def exitMsg (code : Option Int) : String :=
  "Process exited before response (code: " ++ exitCodeStr code ++ ")"

/-- Why a correlation-table record was removed. -/
inductive RemCause where
  | matchedResponse
  | ownTimeout
  | foreignTimeout
  | processExit
  | overwritten
  deriving DecidableEq, Repr

/-- What settled a caller. -/
inductive SettleWhy (Val : Type) where
  | response (m : Msg Val)
  | timedOut
  | exited (code : Option Int)
  | initFailed (k : Nat)
  deriving DecidableEq, Repr

/-- Phase of an in-flight handshake attempt: before or after its
`sendMessageInternal(initRequest)` dispatch. -/
inductive InitPhase where
  | preSend
  | sent
  deriving DecidableEq, Repr

/-- Observable history of a run. -/
inductive Entry (Val : Type) where
  | spawned (procId : Nat)
  | dispatched (cid : Caller) (rid : RId) (procId : Nat)
  | removedRec (rid : RId) (cid : Caller) (why : RemCause)
  | settled (cid : Caller) (out : Outcome Val) (why : SettleWhy Val)
  | notified (m : Msg Val)
  | initStarted (k : Nat)
  | joinedInit (c : Caller) (k : Nat)
  | attemptOk (k : Nat) (procId : Nat)
  | attemptFailed (k : Nat) (e : String)
  deriving DecidableEq, Repr

/-- The mutable fields of `PlaywrightProcessManager`, plus the set of
still-armed per-request timers, the handshake joiners and the log.
`procId` numbers spawns so distinct subprocesses are distinguishable. -/
structure PMState (Val : Type) where
  pending : List (RId × Caller)
  timers : List (RId × Caller)
  messageIdCounter : Nat
  alive : Bool
  procId : Nat
  isInit : Bool
  attempt : Option (Nat × InitPhase)
  nAttempts : Nat
  joiners : List (Caller × Nat)
  log : List (Entry Val)
  deriving DecidableEq, Repr

def PMState.start {Val : Type} : PMState Val :=
  ⟨[], [], 0, false, 0, false, none, 0, [], []⟩

/-- `Map.get`: first value stored under a key. -/
def lookupEntry : List (RId × Caller) → RId → Option Caller
  | [], _ => none
  | (k, v) :: t, r => if k = r then some v else lookupEntry t r

/-- `Map.delete`: remove the entry stored under a key. -/
def eraseKey : List (RId × Caller) → RId → List (RId × Caller)
  | [], _ => []
  | (k, v) :: t, r => if k = r then t else (k, v) :: eraseKey t r

/-- `clearTimeout`: disarm one timer (`erase` of the pair). -/
def erasePair : List (RId × Caller) → RId × Caller → List (RId × Caller)
  | [], _ => []
  | p :: t, q => if p = q then t else p :: erasePair t q

/-- `Map.set`: insert, or replace in place when the key is present;
returns the replaced value so the caller can log the silent overwrite. -/
def setEntry : List (RId × Caller) → RId → Caller →
    List (RId × Caller) × Option Caller
  | [], r, c => ([(r, c)], none)
  | (k, v) :: t, r, c =>
    if k = r then ((r, c) :: t, some v)
    else
      let p := setEntry t r c
      ((k, v) :: p.1, p.2)

/-- Joiners of handshake attempt `k`, in arrival order. -/
def joinersOf (js : List (Caller × Nat)) (k : Nat) : List Caller :=
  (js.filter (fun p => p.2 = k)).map Prod.fst

/-- Settle one caller's promise.  When the caller is a handshake
attempt's own bootstrap request, the attempt completes: on success
`isInitialized := true` and the `notifications/initialized` write happens
(`attemptOk`); on failure the error is rethrown to every joiner and the
`finally` clears `initPromise` so a later call may retry. -/
def settleCall {Val : Type} (s : PMState Val) (cid : Caller)
    (out : Outcome Val) (why : SettleWhy Val) : PMState Val :=
  let s1 : PMState Val := { s with log := s.log ++ [.settled cid out why] }
  match cid, s1.attempt with
  | .initOf k, some (k', _) =>
    if k = k' then
      match out with
      | .ok _ =>
        { s1 with isInit := true, attempt := none,
                  joiners := s1.joiners.filter (fun p => p.2 ≠ k),
                  log := s1.log ++ [.attemptOk k s1.procId] }
      | .fail e =>
        { s1 with attempt := none,
                  joiners := s1.joiners.filter (fun p => p.2 ≠ k),
                  log := s1.log ++
                    (joinersOf s1.joiners k).map
                      (fun c => .settled c (.fail e) (.initFailed k)) ++
                    [.attemptFailed k e] }
    else s1
  | _, _ => s1

/-- `this.emit("notification", message)` when the document has a method
name; otherwise the document is dropped silently. -/
def notifyIfMethod {Val : Type} (s : PMState Val) (m : Msg Val) : PMState Val :=
  match m.method with
  | some _ => { s with log := s.log ++ [.notified m] }
  | none => s

/-- `handleMessage`: match the identifier against the correlation table;
on a match remove the record, clear its timer and settle the caller with
the message's payload; otherwise treat a method-bearing document as a
notification. -/
def handleMessage {Val : Type} (s : PMState Val) (m : Msg Val) : PMState Val :=
  match m.mid with
  | some rid =>
    match lookupEntry s.pending rid with
    | some cid =>
      let s1 : PMState Val :=
        { s with pending := eraseKey s.pending rid,
                 timers := erasePair s.timers (rid, cid),
                 log := s.log ++ [.removedRec rid cid .matchedResponse] }
      settleCall s1 cid (payloadOf m) (.response m)
    | none => notifyIfMethod s m
  | none => notifyIfMethod s m

/-- The 30-second deadline callback of one registration
(`pendingMessages.delete(id); reject(new Error("Request timeout"))`).
Only an armed timer can fire; the delete removes whatever record currently
sits under the identifier, which is the timer's own record only when no
later registration overwrote it. -/
def fireTimer {Val : Type} (s : PMState Val) (rid : RId) (cid : Caller) :
    PMState Val :=
  if (rid, cid) ∈ s.timers then
    let s1 : PMState Val := { s with timers := erasePair s.timers (rid, cid) }
    let s2 : PMState Val :=
      match lookupEntry s1.pending rid with
      | some cid' =>
        { s1 with pending := eraseKey s1.pending rid,
                  log := s1.log ++
                    [.removedRec rid cid'
                      (if cid' = cid then .ownTimeout else .foreignTimeout)] }
      | none => s1
    settleCall s2 cid (.fail "Request timeout") .timedOut
  else s

/-- The `exit` handler of `startProcess`: drop the handle, clear
`isInitialized`, reject every pending record with the exit-code error,
clear each rejected record's timer, and empty the table.  Timers of
records that were silently overwritten earlier are not in the table and
stay armed. -/
def processExitStep {Val : Type} (s : PMState Val) (code : Option Int)
    (_signal : Option String) : PMState Val :=
  let rejected := s.pending
  let s1 : PMState Val :=
    { s with alive := false, isInit := false, pending := [],
             timers := s.timers.filter (fun t => ¬ t ∈ s.pending),
             log := s.log ++
               rejected.map (fun p => .removedRec p.1 p.2 .processExit) }
  rejected.foldl
    (fun acc p => settleCall acc p.2 (.fail (exitMsg code)) (.exited code)) s1

/-- `getProcess` / `startProcess`: return the live handle, or spawn a
fresh subprocess. -/
def ensureProc {Val : Type} (s : PMState Val) : PMState Val :=
  if s.alive then s
  else
    { s with alive := true, procId := s.procId + 1,
             log := s.log ++ [.spawned (s.procId + 1)] }

/-- The synchronous core of `sendMessageInternal` after `getProcess`:
arm the 30s timer, `pendingMessages.set(id, ...)` (silently replacing any
record already stored under the identifier), and write the framed line. -/
def dispatchRecord {Val : Type} (s : PMState Val) (cid : Caller) (rid : RId) :
    PMState Val :=
  let p := setEntry s.pending rid cid
  let s1 : PMState Val :=
    match p.2 with
    | some cOld => { s with log := s.log ++ [.removedRec rid cOld .overwritten] }
    | none => s
  { s1 with pending := p.1, timers := s1.timers ++ [(rid, cid)],
            log := s1.log ++ [.dispatched cid rid s1.procId] }

/-- `sendMessageInternal` for an external caller: ensure a live process,
take the caller-supplied identifier or `++this.messageIdCounter`, then
register and write. -/
def registerStep {Val : Type} (s : PMState Val) (cn : Nat)
    (explicitId : Option RId) : PMState Val :=
  let s1 := ensureProc s
  match explicitId with
  | some r => dispatchRecord s1 (.ext cn) r
  | none =>
    let s2 : PMState Val := { s1 with messageIdCounter := s1.messageIdCounter + 1 }
    dispatchRecord s2 (.ext cn) (RId.num (Int.ofNat s2.messageIdCounter))

/-- The synchronous entry of `initialize()`: return at once when already
initialized; join the in-flight attempt when `initPromise` is set;
otherwise create the attempt and store its promise. -/
def initCallStep {Val : Type} (s : PMState Val) (c : Nat) : PMState Val :=
  if s.isInit then s
  else
    match s.attempt with
    | some (k, _) =>
      { s with joiners := s.joiners ++ [(.ext c, k)],
               log := s.log ++ [.joinedInit (.ext c) k] }
    | none =>
      let k := s.nAttempts
      { s with attempt := some (k, .preSend), nAttempts := k + 1,
               joiners := s.joiners ++ [(.ext c, k)],
               log := s.log ++ [.initStarted k, .joinedInit (.ext c) k] }

/-- The in-flight attempt's dispatch step (after `getProcess()` and the
1000 ms startup pause): send the `initialize` request with the fixed
identifier `0` through `sendMessageInternal`. -/
def initDispatchStep {Val : Type} (s : PMState Val) : PMState Val :=
  match s.attempt with
  | some (k, .preSend) =>
    let s1 := ensureProc s
    let s2 := dispatchRecord s1 (.initOf k) (RId.num 0)
    { s2 with attempt := some (k, .sent) }
  | _ => s

/-- Scheduler events: each is one atomic synchronous section of the
source's single-threaded execution. -/
inductive Ev (Val : Type) where
  | register (cn : Nat) (explicitId : Option RId)
  | inbound (m : Msg Val)
  | fire (rid : RId) (cid : Caller)
  | procExit (code : Option Int) (signal : Option String)
  | callInit (c : Nat)
  | initSendStep
  deriving DecidableEq, Repr

def stepPM {Val : Type} (s : PMState Val) : Ev Val → PMState Val
  | .register cn eid => registerStep s cn eid
  | .inbound m => handleMessage s m
  | .fire rid cid => fireTimer s rid cid
  | .procExit code signal => processExitStep s code signal
  | .callInit c => initCallStep s c
  | .initSendStep => initDispatchStep s

/-- Run a whole schedule from the freshly constructed manager. -/
def runPM {Val : Type} (tr : List (Ev Val)) : PMState Val :=
  tr.foldl stepPM PMState.start

/-- What the synchronous prefix of `sendMessage` does before dispatching:
`if (!isInitialized && !initPromise) await initialize(); else if
(initPromise) await initPromise;` then `sendMessageInternal`. -/
inductive SendDecision where
  | startHandshake
  | awaitAttempt (k : Nat)
  | dispatchNow
  deriving DecidableEq, Repr

def sendDecision {Val : Type} (s : PMState Val) : SendDecision :=
  if s.isInit = false ∧ s.attempt = none then .startHandshake
  else
    match s.attempt with
    | some (k, _) => .awaitAttempt k
    | none => .dispatchNow

/-! ## Admission controller (`MCPHandler.handle`, counter part)

`activeOperations` is checked against `maxConcurrentOperations` before the
`try` block, incremented on admission, and decremented in the `finally`.
The check and the increment sit in the same synchronous section, so one
`enter` event is atomic; the `finally` of an admitted request `r` is its
`finish` event and runs exactly once. -/

inductive AdEntry where
  | rejectedCapacity (r : Nat)
  | admitted (r : Nat)
  | finished (r : Nat)
  deriving DecidableEq, Repr

structure AdmState where
  activeOperations : Nat
  maxConcurrentOperations : Nat
  inflight : List Nat
  alog : List AdEntry
  deriving DecidableEq, Repr

def AdmState.start (mx : Nat) : AdmState := ⟨0, mx, [], []⟩

inductive AdEv where
  | enter (r : Nat)
  | finish (r : Nat)
  deriving DecidableEq, Repr

def stepAdm (s : AdmState) : AdEv → AdmState
  | .enter r =>
    if s.activeOperations ≥ s.maxConcurrentOperations then
      { s with alog := s.alog ++ [.rejectedCapacity r] }
    else
      { s with activeOperations := s.activeOperations + 1,
               inflight := s.inflight ++ [r],
               alog := s.alog ++ [.admitted r] }
  | .finish r =>
    if r ∈ s.inflight then
      { s with activeOperations := s.activeOperations - 1,
               inflight := s.inflight.erase r,
               alog := s.alog ++ [.finished r] }
    else s

def runAdm (mx : Nat) (tr : List AdEv) : AdmState :=
  tr.foldl stepAdm (AdmState.start mx)

/-- Request tokens of the `enter` events of a schedule. -/
def enterTokens (tr : List AdEv) : List Nat :=
  tr.filterMap (fun e => match e with | .enter r => some r | .finish _ => none)

/-- Number of `admitted r` entries of the admission log. -/
def cAdm (lg : List AdEntry) (r : Nat) : Nat :=
  lg.countP (fun e => decide (e = AdEntry.admitted r))

/-- Number of `finished r` entries of the admission log. -/
def cFin (lg : List AdEntry) (r : Nat) : Nat :=
  lg.countP (fun e => decide (e = AdEntry.finished r))

/-- The admission schedule of the worked example of the spec:
ceiling 2, three simultaneous calls, one completion, a fourth call. -/
def wtrace : List AdEv := [.enter 0, .enter 1, .enter 2, .finish 0, .enter 3]

/-! ## JSON-RPC envelopes and `MCPHandler` responses -/

structure JSONRPCError where
  code : Int
  message : String
  data : Option String
  deriving DecidableEq, Repr

structure JSONRPCResponse (Val : Type) where
  id : RId
  result : Option Val
  error : Option JSONRPCError
  deriving DecidableEq, Repr

/-- `MCPHandler.errorResponse`: note the `if (data)` truthiness guard — an
empty-string data field is omitted. -/
def errorResponse {Val : Type} (id : RId) (code : Int) (message : String)
    (data : Option String) : JSONRPCResponse Val :=
  { id := id, result := none,
    error := some
      { code := code, message := message,
        data := match data with
                | some d => if d = "" then none else some d
                | none => none } }

/-- The capacity-rejection data string of `MCPHandler.handle`. -/
def capacityData (mx : Nat) : String :=
  "Maximum concurrent browser operations (" ++ toString mx ++
    ") reached. Please try again later."

/-- An ASCII single-quote character, spelled by code point. -/
def sq : String := String.singleton (Char.ofNat 39)

/-- The data string of the jsonrpc-version validation branch. -/
def jsonrpcMustBe : String := "jsonrpc must be " ++ sq ++ "2.0" ++ sq

/-- One HTTP-level request as the handler sees it: `method = ""` models a
falsy `request.method`; `toolName` is `request.params?.name`; the tool
arguments are abstract. -/
structure JSONRPCRequest (Arg : Type) where
  jsonrpc : String
  rid : RId
  method : String
  toolName : Option String
  args : Option Arg
  deriving DecidableEq, Repr

/-- The payload-level collaborators of `ToolInterceptor` (truthiness
checks on the bridge's response value and the pure post-processing
transformations, whose internal `try`/`catch` blocks cannot throw). -/
structure InterceptorCtx (Val Arg : Type) where
  piiRedactionEnabled : Bool
  hasError : Val → Bool
  hasTools : Val → Bool
  addCustomTools : Val → Val
  hasContent : Val → Bool
  mapContent : Val → Val
  ppScreenshot : Val → Val
  checkLoginWallVal : Val → Val
  emptyArgs : Arg
  hasCartData : Arg → Bool
  hasFormData : Arg → Bool
  instructionsVal : Val

/-- `ToolInterceptor.handle` (with `handleToolsList`, `handleToolsCall`
and the three custom-tool handlers inlined), as a function of the one
bridge round-trip the taken path performs.  `.error e` is a rejection
(an exception whose `.message` is `e`) propagating out of the method;
branches whose source wraps the bridge call in `try`/`catch` never
propagate. -/
def interceptorHandle {Val Arg : Type} (cx : InterceptorCtx Val Arg)
    (req : JSONRPCRequest Arg) (bridge : Except String Val) :
    Except String (JSONRPCResponse Val) :=
  if req.method = "tools/list" then
    match bridge with
    | .error e => .error e
    | .ok v =>
      if cx.hasError v || !cx.hasTools v then
        .ok { id := req.rid, result := some v, error := none }
      else
        .ok { id := req.rid, result := some (cx.addCustomTools v), error := none }
  else if req.method = "tools/call" then
    let args := match req.args with | some a => a | none => cx.emptyArgs
    if req.toolName = some "get_accessibility_snapshot" then
      .ok (match bridge with
        | .ok v =>
          if cx.hasContent v then
            { id := req.rid, result := some (cx.mapContent v), error := none }
          else
            { id := req.rid, result := none,
              error := some ⟨-32603, "Internal Error",
                some "browser_snapshot returned empty content"⟩ }
        | .error e =>
          { id := req.rid, result := none,
            error := some ⟨-32603, "Internal Error",
              some ("Failed to get accessibility snapshot: " ++ e)⟩ })
    else if req.toolName = some "perform_checkout" then
      .ok (if cx.hasCartData args = false then
        { id := req.rid, result := none,
          error := some ⟨-32602, "Invalid params", some "cartData is required"⟩ }
      else
        { id := req.rid, result := some cx.instructionsVal, error := none })
    else if req.toolName = some "fill_form_skill" then
      .ok (if cx.hasFormData args = false then
        { id := req.rid, result := none,
          error := some ⟨-32602, "Invalid params", some "formData is required"⟩ }
      else
        match bridge with
        | .ok v => { id := req.rid, result := some v, error := none }
        | .error e =>
          { id := req.rid, result := none,
            error := some ⟨-32603, "Internal Error", some e⟩ })
    else
      match bridge with
      | .error e => .error e
      | .ok v =>
        if cx.piiRedactionEnabled && req.toolName = some "browser_take_screenshot" then
          .ok { id := req.rid, result := some (cx.ppScreenshot v), error := none }
        else if req.toolName = some "browser_navigate" ∨
            req.toolName = some "browser_navigate_to" then
          .ok { id := req.rid, result := some (cx.checkLoginWallVal v), error := none }
        else
          .ok { id := req.rid, result := some v, error := none }
  else
    match bridge with
    | .ok v => .ok { id := req.rid, result := some v, error := none }
    | .error e =>
      .ok { id := req.rid, result := none,
            error := some ⟨-32603, "Internal Error", some e⟩ }

/-- `MCPHandler.handle` (enhanced variant of `mcp-handler.ts`): capacity
gate, envelope validation, dispatch through the interceptor, and the
`catch` that converts any rejection into a `-32603` error response with
`error.message || "Unknown error"` as data. -/
def handleResponse {Val Arg : Type} (cx : InterceptorCtx Val Arg)
    (req : JSONRPCRequest Arg) (bridge : Except String Val)
    (active mx : Nat) : JSONRPCResponse Val :=
  if active ≥ mx then
    errorResponse req.rid (-32603) "Internal Error" (some (capacityData mx))
  else if req.jsonrpc ≠ "2.0" then
    errorResponse req.rid (-32600) "Invalid Request" (some jsonrpcMustBe)
  else if req.method = "" then
    errorResponse req.rid (-32600) "Invalid Request" (some "method is required")
  else
    match interceptorHandle cx req bridge with
    | .ok r => r
    | .error e =>
      errorResponse req.rid (-32603) "Internal Error" (some (msgOr e))

/-! ## Notification fan-out

The source fans notifications out through Node's `events.EventEmitter`
(`MCPHandler extends EventEmitter`; the SSE route subscribes with `on` and
detaches with `removeListener`).  `emitAll` models the documented `emit`
semantics the source relies on: listeners are invoked synchronously in
registration order over the listener array; an exception thrown by a
listener propagates out of `emit`, so the remaining listeners are not
invoked for that event. -/

structure Listener where
  lid : Nat
  failsOn : Nat → Bool

/-- Invoke the listeners for one published notification `n`: the list of
listener ids actually invoked, and the id of the throwing listener when
the iteration aborted. -/
def emitAll : List Listener → Nat → List Nat × Option Nat
  | [], _ => ([], none)
  | l :: rest, n =>
    if l.failsOn n then ([l.lid], some l.lid)
    else
      let p := emitAll rest n
      (l.lid :: p.1, p.2)

structure FanState where
  listeners : List Listener
  delivered : List (Nat × Nat)
  aborted : List (Nat × Nat)

def FanState.start : FanState := ⟨[], [], []⟩

inductive FanEv where
  | sub (l : Listener)
  | unsub (lid : Nat)
  | publish (n : Nat)

/-- `on` appends; `removeListener` removes the most recently added
matching listener; `emit` delivers to the current listener list. -/
def stepFan (s : FanState) : FanEv → FanState
  | .sub l => { s with listeners := s.listeners ++ [l] }
  | .unsub i =>
    { s with listeners :=
        (s.listeners.reverse.eraseP (fun l => l.lid = i)).reverse }
  | .publish n =>
    let p := emitAll s.listeners n
    { s with delivered := s.delivered ++ p.1.map (fun i => (i, n)),
             aborted := s.aborted ++
               (match p.2 with | some i => [(i, n)] | none => []) }

def runFan (tr : List FanEv) : FanState :=
  tr.foldl stepFan FanState.start

/-- Recognise a silent-overwrite removal entry. -/
def isOverwriteRem {Val : Type} : Entry Val → Bool
  | .removedRec _ _ .overwritten => true
  | _ => false

/-- A run never silently replaced a correlation record (true whenever all
registered identifiers are fresh, e.g. counter-assigned). -/
def noOverwrite {Val : Type} (lg : List (Entry Val)) : Prop :=
  lg.all (fun e => !isOverwriteRem e) = true

/-- Entries that the completion of a handshake attempt may append beyond
the settle of the attempt's own bootstrap request. -/
def isInitExtra {Val : Type} : Entry Val → Bool
  | .settled _ _ (.initFailed _) => true
  | .attemptOk _ _ => true
  | .attemptFailed _ _ => true
  | _ => false

/-- A settle of external caller `n` through the correlation table
(by response, timeout or process exit — handshake-join rejections are
not table settles). -/
def isTableSettle {Val : Type} (n : Nat) : Entry Val → Bool
  | .settled (.ext m) _ why =>
    decide (m = n) &&
      (match why with
       | .initFailed _ => false
       | _ => true)
  | _ => false

def tableSettleCount {Val : Type} (lg : List (Entry Val)) (n : Nat) : Nat :=
  lg.countP (isTableSettle n)

/-- Correlation-table records currently owned by external caller `n`. -/
def pendCount (p : List (RId × Caller)) (n : Nat) : Nat :=
  p.countP (fun q => decide (q.2 = Caller.ext n))

/-- The external caller tokens of the `register` events of a schedule. -/
def regTokens {Val : Type} (tr : List (Ev Val)) : List Nat :=
  tr.filterMap (fun e => match e with | .register cn _ => some cn | _ => none)

/-- Recognise a spawn entry. -/
def isSpawnedEntry {Val : Type} : Entry Val → Bool
  | .spawned _ => true
  | _ => false

/-- Two concurrent callers registering the same caller-supplied
identifier 7: the second registration silently replaces the first. -/
def trC1cex : List (Ev Nat) :=
  [.register 1 (some (RId.num 7)), .register 2 (some (RId.num 7))]

/-- One caller registering with a counter-assigned identifier, then the
matching response arriving: a schedule with no silent overwrite. -/
def trC1wit : List (Ev Nat) :=
  [.register 1 (none : Option RId),
   .inbound ⟨some (RId.num 1), some 5, none, none⟩]

/-- A schedule with one spawn and two handshake attempts: the first
attempt's `initialize` round-trip times out while the process stays
alive, and a later caller retries against the same process. -/
def trC6 : List (Ev Nat) :=
  [.callInit 1, .initSendStep, .fire (RId.num 0) (.initOf 0),
   .callInit 2, .initSendStep]

/-- A concrete interceptor context over `Nat` payloads, used to evaluate
the handler at concrete inputs. -/
def cxNat : InterceptorCtx Nat Nat :=
  { piiRedactionEnabled := true
    hasError := fun _ => false
    hasTools := fun _ => true
    addCustomTools := fun v => v
    hasContent := fun _ => true
    mapContent := fun v => v
    ppScreenshot := fun v => v
    checkLoginWallVal := fun v => v
    emptyArgs := 0
    hasCartData := fun _ => true
    hasFormData := fun _ => true
    instructionsVal := 0 }

/-- A concrete well-formed `tools/list` request. -/
def reqTL : JSONRPCRequest Nat :=
  { jsonrpc := "2.0", rid := RId.num 1, method := "tools/list",
    toolName := none, args := none }

/-- A subscriber whose callback always throws. -/
def throwerL : Listener := ⟨1, fun _ => true⟩

/-- A subscriber whose callback never throws. -/
def quietL : Listener := ⟨2, fun _ => false⟩

/-- Two subscribers attached, then one publish; the first subscriber's
callback throws. -/
def fanCexTrace : List FanEv := [.sub throwerL, .sub quietL, .publish 0]

/-- A concrete parse function used by witnesses. -/
def wparse : List Char → Option Nat :=
  fun l => if l = ['x'] then some 0 else none

/-! ## Lemmas about the framed stream reader -/

lemma breakLines_no_nl (s : List Char) (h : '\n' ∉ s) :
    breakLines s = ([], s) := by
  induction s with
  | nil => rfl
  | cons c t ih =>
    have hc : ¬ c = '\n' := fun hcc => h (hcc ▸ List.mem_cons_self c t)
    have ht : '\n' ∉ t := fun htt => h (List.mem_cons_of_mem c htt)
    simp [breakLines, hc, ih ht]

lemma no_nl_frag (s : List Char) : '\n' ∉ (breakLines s).2 := by
  induction s with
  | nil => simp [breakLines]
  | cons c t ih =>
    by_cases hc : c = '\n'
    · simpa [breakLines, hc] using ih
    · rcases ht : breakLines t with ⟨ls, f⟩
      cases ls with
      | nil =>
        have : '\n' ∉ f := by
          simpa [ht] using ih
        simp only [breakLines, hc, if_neg hc, ht]
        intro hmem
        rcases List.mem_cons.mp hmem with h1 | h2
        · exact hc h1.symm
        · exact this h2
      | cons l ls' =>
        simpa [breakLines, hc, ht] using ih

lemma breakLines_append (a b : List Char) :
    breakLines (a ++ b) =
      match breakLines b with
      | ([], fb) => ((breakLines a).1, (breakLines a).2 ++ fb)
      | (lb :: lbs, fb) =>
        ((breakLines a).1 ++ ((breakLines a).2 ++ lb) :: lbs, fb) := by
  induction a with
  | nil =>
    rcases hb : breakLines b with ⟨lbs, fb⟩
    cases lbs <;> simp [breakLines, hb]
  | cons c a' ih =>
    by_cases hc : c = '\n'
    · subst hc
      rcases hb : breakLines b with ⟨lbs, fb⟩
      cases lbs <;> simp [breakLines, hb, ih]
    · rcases hb : breakLines b with ⟨lbs, fb⟩
      rcases ha : breakLines a' with ⟨las, fa⟩
      cases lbs with
      | nil =>
        cases las with
        | nil =>
          have hab : breakLines (a' ++ b) = ([], fa ++ fb) := by
            rw [ih]; simp [hb, ha]
          simp [breakLines, hc, hab, ha]
        | cons l1 ls1 =>
          have hab : breakLines (a' ++ b) = (l1 :: ls1, fa ++ fb) := by
            rw [ih]; simp [hb, ha]
          simp [breakLines, hc, hab, ha]
      | cons lb lbs' =>
        cases las with
        | nil =>
          have hab : breakLines (a' ++ b) = ((fa ++ lb) :: lbs', fb) := by
            rw [ih]; simp [hb, ha]
          simp [breakLines, hc, hab, ha]
        | cons l1 ls1 =>
          have hab : breakLines (a' ++ b) =
              (l1 :: (ls1 ++ (fa ++ lb) :: lbs'), fb) := by
            rw [ih]; simp [hb, ha]
          simp [breakLines, hc, hab, ha]

lemma handleLine_buffer {M : Type} (parse : List Char → Option M)
    (st : ReaderState M) (l : List Char) :
    (handleLine parse st l).buffer = st.buffer := by
  unfold handleLine
  by_cases h : trimChars l = []
  · simp [h]
  · cases hp : parse (trimChars l) <;> simp [h, hp]

lemma foldl_handleLine_buffer {M : Type} (parse : List Char → Option M)
    (ls : List (List Char)) :
    ∀ st : ReaderState M,
      (ls.foldl (handleLine parse) st).buffer = st.buffer := by
  induction ls with
  | nil => intro st; rfl
  | cons l t ih =>
    intro st
    rw [List.foldl_cons, ih, handleLine_buffer]

lemma handleLine_buffer_set {M : Type} (parse : List Char → Option M)
    (st : ReaderState M) (x l : List Char) :
    handleLine parse { st with buffer := x } l =
      { handleLine parse st l with buffer := x } := by
  unfold handleLine
  by_cases h : trimChars l = []
  · simp [h]
  · cases hp : parse (trimChars l) <;> simp [h, hp]

lemma foldl_handleLine_buffer_set {M : Type} (parse : List Char → Option M)
    (ls : List (List Char)) :
    ∀ (st : ReaderState M) (x : List Char),
      ls.foldl (handleLine parse) { st with buffer := x } =
        { ls.foldl (handleLine parse) st with buffer := x } := by
  induction ls with
  | nil => intro st x; rfl
  | cons l t ih =>
    intro st x
    rw [List.foldl_cons, List.foldl_cons, handleLine_buffer_set, ih]

lemma foldl_handleLine_outs {M : Type} (parse : List Char → Option M)
    (ls : List (List Char)) :
    ∀ st : ReaderState M,
      (ls.foldl (handleLine parse) st).outs =
        st.outs ++ ls.filterMap (lineDecode parse) := by
  induction ls with
  | nil => intro st; simp
  | cons l t ih =>
    intro st
    rw [List.foldl_cons, ih]
    unfold handleLine lineDecode
    by_cases h : trimChars l = []
    · simp [h]
    · cases hp : parse (trimChars l) <;> simp [h, hp]

lemma foldl_handleLine_skipped {M : Type} (parse : List Char → Option M)
    (ls : List (List Char)) :
    ∀ st : ReaderState M,
      (ls.foldl (handleLine parse) st).skipped =
        st.skipped ++ ls.filterMap (lineSkip parse) := by
  induction ls with
  | nil => intro st; simp
  | cons l t ih =>
    intro st
    rw [List.foldl_cons, ih]
    unfold handleLine lineSkip
    by_cases h : trimChars l = []
    · simp [h]
    · cases hp : parse (trimChars l) <;> simp [h, hp]

lemma processChunk_norm {M : Type} (parse : List Char → Option M)
    (st : ReaderState M) (c : List Char) :
    processChunk parse st c =
      ⟨(breakLines (st.buffer ++ c)).2,
       st.outs ++ (breakLines (st.buffer ++ c)).1.filterMap (lineDecode parse),
       st.skipped ++
         (breakLines (st.buffer ++ c)).1.filterMap (lineSkip parse)⟩ := by
  unfold processChunk
  have hb := foldl_handleLine_buffer parse (breakLines (st.buffer ++ c)).1
    ({ st with buffer := (breakLines (st.buffer ++ c)).2 })
  have ho := foldl_handleLine_outs parse (breakLines (st.buffer ++ c)).1
    ({ st with buffer := (breakLines (st.buffer ++ c)).2 })
  have hs := foldl_handleLine_skipped parse (breakLines (st.buffer ++ c)).1
    ({ st with buffer := (breakLines (st.buffer ++ c)).2 })
  have heta :
      (breakLines (st.buffer ++ c)).1.foldl (handleLine parse)
          { st with buffer := (breakLines (st.buffer ++ c)).2 } =
        ⟨((breakLines (st.buffer ++ c)).1.foldl (handleLine parse)
            { st with buffer := (breakLines (st.buffer ++ c)).2 }).buffer,
         ((breakLines (st.buffer ++ c)).1.foldl (handleLine parse)
            { st with buffer := (breakLines (st.buffer ++ c)).2 }).outs,
         ((breakLines (st.buffer ++ c)).1.foldl (handleLine parse)
            { st with buffer := (breakLines (st.buffer ++ c)).2 }).skipped⟩ := rfl
  rw [heta, hb, ho, hs]

lemma processChunk_comp {M : Type} (parse : List Char → Option M)
    (st : ReaderState M) (c1 c2 : List Char) :
    processChunk parse (processChunk parse st c1) c2 =
      processChunk parse st (c1 ++ c2) := by
  have hf1 : '\n' ∉ (breakLines (st.buffer ++ c1)).2 := no_nl_frag _
  have hfrag := breakLines_no_nl _ hf1
  have h2 := breakLines_append ((breakLines (st.buffer ++ c1)).2) c2
  have hAll := breakLines_append (st.buffer ++ c1) c2
  rw [processChunk_norm, processChunk_norm, processChunk_norm]
  simp only []
  rcases hb : breakLines c2 with ⟨lbs, fb⟩
  rw [hb] at h2 hAll
  rw [hfrag] at h2
  rw [← List.append_assoc st.buffer c1 c2]
  cases lbs with
  | nil =>
    simp only [] at h2 hAll
    rw [h2, hAll]
    simp
  | cons lb lbs' =>
    simp only [] at h2 hAll
    rw [h2, hAll]
    simp [List.filterMap_append, List.append_assoc]

lemma foldl_processChunk {M : Type} (parse : List Char → Option M)
    (cs : List (List Char)) :
    ∀ st : ReaderState M, '\n' ∉ st.buffer →
      cs.foldl (processChunk parse) st = processChunk parse st cs.flatten := by
  induction cs with
  | nil =>
    intro st h
    show st = processChunk parse st []
    rw [processChunk_norm]
    rw [List.append_nil, breakLines_no_nl st.buffer h]
    simp
  | cons c t ih =>
    intro st h
    have hfragp : '\n' ∉ (processChunk parse st c).buffer := by
      rw [processChunk_norm]
      exact no_nl_frag _
    rw [List.foldl_cons, ih (processChunk parse st c) hfragp, processChunk_comp]
    rfl

lemma feedChunks_join {M : Type} (parse : List Char → Option M)
    (cs : List (List Char)) :
    feedChunks parse cs = processChunk parse ReaderState.start cs.flatten := by
  unfold feedChunks
  exact foldl_processChunk parse cs ReaderState.start (by simp [ReaderState.start])

lemma breakLines_line_nl (d : List Char) (hnl : '\n' ∉ d) :
    breakLines (d ++ ['\n']) = ([d], []) := by
  have h1 : breakLines ['\n'] = ([[]], []) := rfl
  rw [breakLines_append, h1]
  simp [breakLines_no_nl d hnl]

/-- C7: any valid single-line document followed by its terminator is
decoded exactly once, however the byte stream is chunked; nothing is
decoded while the terminator is still missing. -/
theorem framing_roundtrip {M : Type} (parse : List Char → Option M)
    (cs : List (List Char)) (d : List Char) (m : M)
    (hnl : '\n' ∉ d) (ht : trimChars d ≠ [])
    (hp : parse (trimChars d) = some m)
    (hj : cs.flatten = d ++ ['\n']) :
    (feedChunks parse cs).outs = [m] ∧
    (feedChunks parse cs).buffer = [] ∧
    (feedChunks parse cs).skipped = [] ∧
    (∀ ds : List (List Char), '\n' ∉ ds.flatten →
      (feedChunks parse ds).outs = [] ∧
      (feedChunks parse ds).buffer = ds.flatten) := by
  have hd : lineDecode parse d = some m := by
    unfold lineDecode; rw [if_neg ht, hp]
  have hs : lineSkip parse d = none := by
    unfold lineSkip; rw [if_neg ht, hp]
  have hbl := breakLines_line_nl d hnl
  refine ⟨?_, ?_, ?_, ?_⟩
  · rw [feedChunks_join, hj, processChunk_norm]
    simp only [ReaderState.start, List.nil_append]
    rw [hbl]
    simp [hd]
  · rw [feedChunks_join, hj, processChunk_norm]
    simp only [ReaderState.start, List.nil_append]
    rw [hbl]
  · rw [feedChunks_join, hj, processChunk_norm]
    simp only [ReaderState.start, List.nil_append]
    rw [hbl]
    simp [hs]
  · intro ds hds
    constructor
    · rw [feedChunks_join, processChunk_norm]
      simp [ReaderState.start, breakLines_no_nl ds.flatten hds]
    · rw [feedChunks_join, processChunk_norm]
      simp [ReaderState.start, breakLines_no_nl ds.flatten hds]

/-- Witness for `framing_roundtrip`: the document `x` split across two
chunks, the second chunk carrying only the terminator. -/
theorem framing_roundtrip_witness :
    ('\n' ∉ ['x']) ∧ (feedChunks wparse [['x'], ['\n']]).outs = [0] :=
  ⟨by decide,
   (framing_roundtrip wparse [['x'], ['\n']] ['x'] 0 (by decide) (by decide)
      (by decide) (by decide)).1⟩

/-- C8: the reader is a total function; every complete line is decoded
independently (so malformed lines are logged into `skipped` and
dropped while the valid lines around them are still decoded). -/
theorem reader_skips_malformed {M : Type} (parse : List Char → Option M)
    (cs : List (List Char)) :
    ((feedChunks parse cs).outs =
      (breakLines cs.flatten).1.filterMap (lineDecode parse)) ∧
    ((feedChunks parse cs).skipped =
      (breakLines cs.flatten).1.filterMap (lineSkip parse)) ∧
    (∀ (bad good : List Char) (m : M),
      '\n' ∉ bad → '\n' ∉ good →
      trimChars bad ≠ [] → parse (trimChars bad) = none →
      trimChars good ≠ [] → parse (trimChars good) = some m →
      cs.flatten = bad ++ '\n' :: (good ++ ['\n']) →
      (feedChunks parse cs).outs = [m] ∧
      (feedChunks parse cs).skipped = [trimChars bad]) := by
  have hout : (feedChunks parse cs).outs =
      (breakLines cs.flatten).1.filterMap (lineDecode parse) := by
    rw [feedChunks_join, processChunk_norm]
    simp [ReaderState.start]
  have hskip : (feedChunks parse cs).skipped =
      (breakLines cs.flatten).1.filterMap (lineSkip parse) := by
    rw [feedChunks_join, processChunk_norm]
    simp [ReaderState.start]
  refine ⟨hout, hskip, ?_⟩
  intro bad good m hb hg htb hpb htg hpg hj
  have hblg := breakLines_line_nl good hg
  have hbl2 : breakLines (bad ++ '\n' :: (good ++ ['\n'])) = ([bad, good], []) := by
    have hsh : ('\n' :: (good ++ ['\n'])) = ['\n'] ++ (good ++ ['\n']) := rfl
    have h2 : breakLines ('\n' :: (good ++ ['\n'])) = ([[], good], []) := by
      show breakLines ('\n' :: (good ++ ['\n'])) = ([[], good], [])
      simp [breakLines, hblg]
    rw [breakLines_append, h2]
    simp [breakLines_no_nl bad hb]
  have hdb : lineDecode parse bad = none := by
    unfold lineDecode; rw [if_neg htb, hpb]
  have hdg : lineDecode parse good = some m := by
    unfold lineDecode; rw [if_neg htg, hpg]
  have hsb : lineSkip parse bad = some (trimChars bad) := by
    unfold lineSkip; rw [if_neg htb, hpb]
  have hsg : lineSkip parse good = none := by
    unfold lineSkip; rw [if_neg htg, hpg]
  constructor
  · rw [hout, hj, hbl2]
    simp [hdb, hdg]
  · rw [hskip, hj, hbl2]
    simp [hsb, hsg]

/-! ## Admission controller lemmas and C2 -/

lemma runAdm_append (mx : Nat) (tr : List AdEv) (e : AdEv) :
    runAdm mx (tr ++ [e]) = stepAdm (runAdm mx tr) e := by
  unfold runAdm
  rw [List.foldl_append]
  rfl

lemma adm_main (mx : Nat) (tr : List AdEv) :
    (runAdm mx tr).maxConcurrentOperations = mx ∧
    (runAdm mx tr).activeOperations = (runAdm mx tr).inflight.length ∧
    (runAdm mx tr).activeOperations ≤ mx ∧
    (∀ r, cFin (runAdm mx tr).alog r + (runAdm mx tr).inflight.count r =
      cAdm (runAdm mx tr).alog r) ∧
    (∀ r, cAdm (runAdm mx tr).alog r ≤ (enterTokens tr).count r) := by
  induction tr using List.reverseRecOn with
  | nil => simp [runAdm, AdmState.start, cAdm, cFin, enterTokens]
  | append_singleton tr e ih =>
    obtain ⟨hmx, hlen, hle, hbal, hadm⟩ := ih
    rw [runAdm_append]
    have hTok : ∀ x : AdEv, enterTokens (tr ++ [x]) =
        enterTokens tr ++ enterTokens [x] := by
      intro x
      unfold enterTokens
      rw [List.filterMap_append]
    cases e with
    | enter r =>
      by_cases h : (runAdm mx tr).activeOperations ≥
          (runAdm mx tr).maxConcurrentOperations
      · have hstep : stepAdm (runAdm mx tr) (.enter r) =
            { runAdm mx tr with
              alog := (runAdm mx tr).alog ++ [.rejectedCapacity r] } := by
          simp only [stepAdm]
          rw [if_pos h]
        rw [hstep]
        refine ⟨hmx, hlen, hle, ?_, ?_⟩
        · intro r'
          have := hbal r'
          simp only [cAdm, cFin, List.countP_append] at this ⊢
          simp only [List.countP_cons, List.countP_nil]
          simp
          omega
        · intro r'
          have := hadm r'
          rw [hTok]
          simp only [cAdm, List.countP_append] at this ⊢
          simp only [List.countP_cons, List.countP_nil, List.count_append]
          simp
          omega
      · have hstep : stepAdm (runAdm mx tr) (.enter r) =
            { runAdm mx tr with
              activeOperations := (runAdm mx tr).activeOperations + 1,
              inflight := (runAdm mx tr).inflight ++ [r],
              alog := (runAdm mx tr).alog ++ [.admitted r] } := by
          simp only [stepAdm]
          rw [if_neg h]
        rw [hstep]
        dsimp only
        rw [hmx] at h
        refine ⟨hmx, ?_, ?_, ?_, ?_⟩
        · simp [hlen]
        · omega
        · intro r'
          have := hbal r'
          simp only [cAdm, cFin, List.countP_append] at this ⊢
          simp only [List.countP_cons, List.countP_nil, List.count_append,
            List.count_cons, List.count_nil]
          by_cases hr : r = r' <;> simp [hr] <;> omega
        · intro r'
          have := hadm r'
          rw [hTok]
          simp only [cAdm, List.countP_append] at this ⊢
          simp only [List.countP_cons, List.countP_nil, List.count_append]
          have h1 : enterTokens [AdEv.enter r] = [r] := rfl
          rw [h1]
          by_cases hr : r = r' <;>
            simp [hr, List.count_cons, List.count_nil] <;> omega
    | finish r =>
      by_cases h : r ∈ (runAdm mx tr).inflight
      · have hpos : 0 < (runAdm mx tr).inflight.count r :=
          List.count_pos_iff.mpr h
        have hlpos : 0 < (runAdm mx tr).inflight.length :=
          List.length_pos_of_mem h
        have hstep : stepAdm (runAdm mx tr) (.finish r) =
            { runAdm mx tr with
              activeOperations := (runAdm mx tr).activeOperations - 1,
              inflight := (runAdm mx tr).inflight.erase r,
              alog := (runAdm mx tr).alog ++ [.finished r] } := by
          simp only [stepAdm]
          rw [if_pos h]
        rw [hstep]
        dsimp only
        refine ⟨hmx, ?_, ?_, ?_, ?_⟩
        · show (runAdm mx tr).activeOperations - 1 =
            ((runAdm mx tr).inflight.erase r).length
          rw [hlen, List.length_erase_of_mem h]
        · omega
        · intro r'
          have := hbal r'
          simp only [cAdm, cFin, List.countP_append] at this ⊢
          simp only [List.countP_cons, List.countP_nil]
          by_cases hr : r' = r
          · subst hr
            rw [List.count_erase_self]
            simp
            omega
          · rw [List.count_erase_of_ne hr]
            have hr2 : ¬ r = r' := fun hh => hr hh.symm
            simp [hr2]
            omega
        · intro r'
          have := hadm r'
          rw [hTok]
          simp only [cAdm, List.countP_append] at this ⊢
          simp only [List.countP_cons, List.countP_nil, List.count_append]
          have h1 : enterTokens [AdEv.finish r] = [] := rfl
          rw [h1]
          simp
          omega
      · have hstep : stepAdm (runAdm mx tr) (.finish r) = runAdm mx tr := by
          simp only [stepAdm]
          rw [if_neg h]
        rw [hstep]
        refine ⟨hmx, hlen, hle, hbal, ?_⟩
        intro r'
        have := hadm r'
        rw [hTok]
        have h1 : enterTokens [AdEv.finish r] = [] := rfl
        rw [h1, List.append_nil]
        exact this

/-- C2: the admission counter equals the number of in-flight admitted
requests and never exceeds the ceiling; a call arriving at the ceiling is
rejected without touching the counter; each admitted request is finished
(decremented) at most once per admission. -/
theorem admission_counter_invariant (mx : Nat) (tr : List AdEv) :
    ((runAdm mx tr).activeOperations ≤ mx ∧
     (runAdm mx tr).activeOperations = (runAdm mx tr).inflight.length) ∧
    (∀ (s : AdmState) (r : Nat),
      s.activeOperations ≥ s.maxConcurrentOperations →
      stepAdm s (.enter r) = { s with alog := s.alog ++ [.rejectedCapacity r] }) ∧
    (∀ r, cFin (runAdm mx tr).alog r ≤ cAdm (runAdm mx tr).alog r) ∧
    ((enterTokens tr).Nodup → ∀ r, cAdm (runAdm mx tr).alog r ≤ 1) := by
  obtain ⟨hmx, hlen, hle, hbal, hadm⟩ := adm_main mx tr
  refine ⟨⟨hle, hlen⟩, ?_, ?_, ?_⟩
  · intro s r h
    simp only [stepAdm]
    rw [if_pos h]
  · intro r
    have := hbal r
    omega
  · intro hnd r
    have h1 := hadm r
    have h2 : (enterTokens tr).count r ≤ 1 :=
      List.nodup_iff_count_le_one.mp hnd r
    omega

/-- Witness for `admission_counter_invariant`: ceiling 2 with the spec's
example schedule (three simultaneous calls, one completion, one more). -/
theorem admission_counter_invariant_witness :
    (enterTokens wtrace).Nodup ∧
    (runAdm 2 wtrace).activeOperations ≤ 2 ∧
    cAdm (runAdm 2 wtrace).alog 2 ≤ 1 :=
  ⟨by decide,
   (admission_counter_invariant 2 wtrace).1.1,
   (admission_counter_invariant 2 wtrace).2.2.2 (by decide) 2⟩

/-- Witness for `reader_skips_malformed`: an unparsable line `y` followed
by the valid line `x`; only `x` is decoded, `y` is logged and skipped. -/
theorem reader_skips_malformed_witness :
    (trimChars ['y'] ≠ []) ∧
    (feedChunks wparse [['y', '\n', 'x'], ['\n']]).outs = [0] ∧
    (feedChunks wparse [['y', '\n', 'x'], ['\n']]).skipped = [['y']] :=
  ⟨by decide,
   ((reader_skips_malformed wparse [['y', '\n', 'x'], ['\n']]).2.2
      ['y'] ['x'] 0 (by decide) (by decide) (by decide) (by decide)
      (by decide) (by decide) (by decide)).1,
   by
    have h := ((reader_skips_malformed wparse [['y', '\n', 'x'], ['\n']]).2.2
      ['y'] ['x'] 0 (by decide) (by decide) (by decide) (by decide)
      (by decide) (by decide) (by decide)).2
    simpa using h⟩

/-! ## Error-kind claims (C3, C10) -/

/-- Counterexample for C3: the capacity rejection and the surfaced
30-second timeout rejection carry the same JSON-RPC error code (`-32603`)
and the same message (`"Internal Error"`); they do not differ in kind. -/
theorem capacity_vs_timeout_same_kind_cex :
    ((handleResponse cxNat reqTL (Except.ok 0) 5 5).error.map
        JSONRPCError.code =
      (handleResponse cxNat reqTL (Except.error "Request timeout") 0 5).error.map
        JSONRPCError.code) ∧
    ((handleResponse cxNat reqTL (Except.ok 0) 5 5).error.map
        JSONRPCError.message =
      (handleResponse cxNat reqTL (Except.error "Request timeout") 0 5).error.map
        JSONRPCError.message) ∧
    (handleResponse cxNat reqTL (Except.ok 0) 5 5).error.map
        JSONRPCError.code = some (-32603) := by
  refine ⟨?_, ?_, ?_⟩ <;> rfl

/-- C3 (amended): both rejections surface as code `-32603`, message
`"Internal Error"`; only the `data` strings keep them apart, and those
always differ. -/
theorem capacity_timeout_distinguishable_only_by_data
    {Val Arg : Type} (cx : InterceptorCtx Val Arg) (req : JSONRPCRequest Arg)
    (active mx : Nat) :
    (active ≥ mx →
      handleResponse cx req (Except.error "Request timeout") active mx =
        errorResponse req.rid (-32603) "Internal Error"
          (some (capacityData mx))) ∧
    (active < mx → req.jsonrpc = "2.0" → req.method = "tools/list" →
      handleResponse cx req (Except.error "Request timeout") active mx =
        errorResponse req.rid (-32603) "Internal Error"
          (some "Request timeout")) ∧
    capacityData mx ≠ "Request timeout" := by
  refine ⟨?_, ?_, ?_⟩
  · intro h
    unfold handleResponse
    rw [if_pos h]
  · intro hlt hj hm
    unfold handleResponse
    rw [if_neg (Nat.not_le.mpr hlt)]
    rw [if_neg (by simp [hj])]
    rw [if_neg (by simp [hm])]
    unfold interceptorHandle
    rw [if_pos hm]
    show errorResponse req.rid (-32603) "Internal Error"
        (some (msgOr "Request timeout")) = _
    rfl
  · intro h
    unfold capacityData at h
    have hlen := congrArg String.length h
    rw [String.length_append, String.length_append] at hlen
    have h1 : ("Maximum concurrent browser operations (").length = 39 := rfl
    have h2 : (") reached. Please try again later.").length = 34 := rfl
    have h3 : ("Request timeout").length = 15 := rfl
    omega

/-- Witness for `capacity_timeout_distinguishable_only_by_data` at the
ceiling (5 active, ceiling 5). -/
theorem capacity_timeout_distinguishable_only_by_data_witness :
    5 ≥ 5 ∧
    handleResponse cxNat reqTL (Except.error "Request timeout") 5 5 =
      errorResponse (RId.num 1) (-32603) "Internal Error"
        (some (capacityData 5)) :=
  ⟨Nat.le_refl 5,
   (capacity_timeout_distinguishable_only_by_data cxNat reqTL 5 5).1
     (Nat.le_refl 5)⟩

lemma interceptor_ok_id {Val Arg : Type} (cx : InterceptorCtx Val Arg)
    (req : JSONRPCRequest Arg) (bridge : Except String Val)
    (r : JSONRPCResponse Val) :
    interceptorHandle cx req bridge = .ok r → r.id = req.rid := by
  intro h
  unfold interceptorHandle at h
  by_cases h1 : req.method = "tools/list"
  · rw [if_pos h1] at h
    cases bridge with
    | error e => exact absurd h (by simp)
    | ok v =>
      cases hE : (cx.hasError v || !cx.hasTools v) <;> simp [hE] at h <;>
        (subst h; rfl)
  · rw [if_neg h1] at h
    by_cases h2 : req.method = "tools/call"
    · rw [if_pos h2] at h
      dsimp only at h
      by_cases h3 : req.toolName = some "get_accessibility_snapshot"
      · rw [if_pos h3] at h
        cases bridge with
        | ok v =>
          cases hC : cx.hasContent v <;> simp [hC] at h <;> (subst h; rfl)
        | error e => simp at h; subst h; rfl
      · rw [if_neg h3] at h
        by_cases h4 : req.toolName = some "perform_checkout"
        · rw [if_pos h4] at h
          cases hC : cx.hasCartData
              (match req.args with
               | some a => a
               | none => cx.emptyArgs) <;> simp [hC] at h <;> (subst h; rfl)
        · rw [if_neg h4] at h
          by_cases h5 : req.toolName = some "fill_form_skill"
          · rw [if_pos h5] at h
            cases hF : cx.hasFormData
                (match req.args with
                 | some a => a
                 | none => cx.emptyArgs) with
            | false => simp [hF] at h; subst h; rfl
            | true =>
              cases bridge with
              | ok v => simp [hF] at h; subst h; rfl
              | error e => simp [hF] at h; subst h; rfl
          · rw [if_neg h5] at h
            cases bridge with
            | error e => exact absurd h (by simp)
            | ok v =>
              cases hP : (cx.piiRedactionEnabled &&
                  req.toolName = some "browser_take_screenshot") with
              | true => simp [hP] at h; subst h; rfl
              | false =>
                by_cases h6 : (req.toolName = some "browser_navigate" ∨
                    req.toolName = some "browser_navigate_to")
                · simp [hP, h6] at h; subst h; rfl
                · simp [hP, h6] at h; subst h; rfl
    · rw [if_neg h2] at h
      cases bridge with
      | ok v => simp at h; subst h; rfl
      | error e => simp at h; subst h; rfl

/-- Counterexample for C10: an exception with an empty message is
converted with data `"Unknown error"`, not the exception's message. -/
theorem handle_empty_message_cex :
    handleResponse cxNat reqTL (Except.error "") 0 5 =
      errorResponse (RId.num 1) (-32603) "Internal Error"
        (some "Unknown error") ∧
    ¬ ("Unknown error" = "") := by
  exact ⟨rfl, by decide⟩

/-- C10 (amended): the handler always returns a response echoing the
request's id, and converts any interceptor/bridge rejection reaching its
`catch` into a `-32603` response whose data is
`error.message || "Unknown error"`. -/
theorem handle_total_echoes_id {Val Arg : Type} (cx : InterceptorCtx Val Arg)
    (req : JSONRPCRequest Arg) (bridge : Except String Val)
    (active mx : Nat) :
    (handleResponse cx req bridge active mx).id = req.rid ∧
    (∀ e, active < mx → req.jsonrpc = "2.0" → req.method ≠ "" →
      interceptorHandle cx req bridge = .error e →
      handleResponse cx req bridge active mx =
        errorResponse req.rid (-32603) "Internal Error" (some (msgOr e))) := by
  constructor
  · unfold handleResponse
    by_cases hc : active ≥ mx
    · rw [if_pos hc]; rfl
    · rw [if_neg hc]
      by_cases hj : req.jsonrpc ≠ "2.0"
      · rw [if_pos hj]; rfl
      · rw [if_neg hj]
        by_cases hm : req.method = ""
        · rw [if_pos hm]; rfl
        · rw [if_neg hm]
          cases hI : interceptorHandle cx req bridge with
          | ok r => exact interceptor_ok_id cx req bridge r hI
          | error e => rfl
  · intro e hlt hj hm hI
    unfold handleResponse
    rw [if_neg (Nat.not_le.mpr hlt)]
    rw [if_neg (by simp [hj])]
    rw [if_neg hm]
    rw [hI]

/-- Witness for `handle_total_echoes_id`: a bridge rejection with message
`boom` surfacing through a `tools/list` request. -/
theorem handle_total_echoes_id_witness :
    (0 < 5) ∧
    handleResponse cxNat reqTL (Except.error "boom") 0 5 =
      errorResponse (RId.num 1) (-32603) "Internal Error"
        (some (msgOr "boom")) :=
  ⟨by decide,
   (handle_total_echoes_id cxNat reqTL (Except.error "boom") 0 5).2 "boom"
     (by decide) rfl (by decide) rfl⟩

/-! ## Notification fan-out (C9) -/

/-- Counterexample for C9: with two subscribers attached, a throwing
first subscriber prevents delivery of that notification to the
later-registered subscriber — the exception is not swallowed by the
emitter, it aborts the fan-out. -/
theorem fanout_throw_blocks_later_cex :
    (runFan fanCexTrace).delivered = [(1, 0)] ∧
    ((2 : Nat), (0 : Nat)) ∉ (runFan fanCexTrace).delivered ∧
    (runFan fanCexTrace).aborted = [(1, 0)] := by
  refine ⟨rfl, ?_, rfl⟩
  decide

/-- C9 (amended): publish invokes the currently attached subscribers
synchronously in registration order; when no callback throws every
subscriber receives the notification, a throwing callback aborts delivery
to the later-registered subscribers, and a publish delivers only to the
subscribers attached at that moment (no replay to later subscribers). -/
theorem fanout_order_and_no_replay :
    (∀ (ls : List Listener) (n : Nat),
      (∀ l ∈ ls, l.failsOn n = false) →
      (emitAll ls n).1 = ls.map Listener.lid ∧ (emitAll ls n).2 = none) ∧
    (∀ (ls : List Listener) (n : Nat),
      (emitAll ls n).1 =
        ((ls.takeWhile fun l => !l.failsOn n).map Listener.lid) ++
          (((ls.dropWhile fun l => !l.failsOn n).take 1).map Listener.lid)) ∧
    (∀ (ls : List Listener) (n i : Nat),
      i ∈ (emitAll ls n).1 → i ∈ ls.map Listener.lid) ∧
    (∀ (s : FanState) (n : Nat),
      (stepFan s (.publish n)).delivered =
        s.delivered ++ ((emitAll s.listeners n).1.map fun i => (i, n))) ∧
    (∀ (s : FanState) (l : Listener),
      (stepFan s (.sub l)).delivered = s.delivered) := by
  refine ⟨?_, ?_, ?_, ?_, ?_⟩
  · intro ls n hok
    induction ls with
    | nil => exact ⟨rfl, rfl⟩
    | cons l rest ih =>
      have hl : l.failsOn n = false := hok l (List.mem_cons_self l rest)
      have hrest : ∀ l' ∈ rest, l'.failsOn n = false :=
        fun l' hl' => hok l' (List.mem_cons_of_mem l hl')
      obtain ⟨ih1, ih2⟩ := ih hrest
      constructor <;> simp [emitAll, hl, ih1, ih2]
  · intro ls n
    induction ls with
    | nil => rfl
    | cons l rest ih =>
      cases hl : l.failsOn n with
      | true => simp [emitAll, hl]
      | false => simp [emitAll, hl, ih]
  · intro ls n i hi
    induction ls with
    | nil => simp [emitAll] at hi
    | cons l rest ih =>
      cases hl : l.failsOn n with
      | true =>
        rw [emitAll, hl] at hi
        simp at hi
        simp [hi]
      | false =>
        rw [emitAll, hl] at hi
        simp at hi
        rcases hi with hi | hi
        · simp [hi]
        · simp [ih hi]
  · intro s n
    rfl
  · intro s l
    rfl

/-- Witness for `fanout_order_and_no_replay`: a single non-throwing
subscriber receives the published notification. -/
theorem fanout_order_and_no_replay_witness :
    (∀ l ∈ [quietL], l.failsOn 0 = false) ∧ (emitAll [quietL] 0).1 = [2] :=
  ⟨by
    intro l hl
    rw [List.mem_singleton] at hl
    subst hl
    rfl,
   (fanout_order_and_no_replay.1 [quietL] 0
     (by
       intro l hl
       rw [List.mem_singleton] at hl
       subst hl
       rfl)).1⟩

/-! ## Correlation-table lemmas -/

lemma lookup_none_iff (l : List (RId × Caller)) (r : RId) :
    lookupEntry l r = none ↔ r ∉ l.map Prod.fst := by
  induction l with
  | nil => simp [lookupEntry]
  | cons p t ih =>
    rcases p with ⟨k, v⟩
    by_cases hk : k = r
    · subst hk
      simp [lookupEntry]
    · have hrk : ¬ r = k := fun h => hk h.symm
      rw [lookupEntry, if_neg hk, ih]
      simp [List.mem_cons, hrk]

lemma setEntry_of_lookup_none (l : List (RId × Caller)) (r : RId) (c : Caller)
    (h : lookupEntry l r = none) : setEntry l r c = (l ++ [(r, c)], none) := by
  induction l with
  | nil => rfl
  | cons p t ih =>
    rcases p with ⟨k, v⟩
    by_cases hk : k = r
    · subst hk
      simp [lookupEntry] at h
    · rw [lookupEntry, if_neg hk] at h
      simp [setEntry, hk, ih h]

lemma setEntry_of_lookup_some (l : List (RId × Caller)) (r : RId)
    (c c0 : Caller) (h : lookupEntry l r = some c0) :
    (setEntry l r c).2 = some c0 ∧
    (setEntry l r c).1.map Prod.fst = l.map Prod.fst := by
  induction l with
  | nil => simp [lookupEntry] at h
  | cons p t ih =>
    rcases p with ⟨k, v⟩
    by_cases hk : k = r
    · subst hk
      rw [lookupEntry, if_pos rfl] at h
      cases h
      simp [setEntry]
    · rw [lookupEntry, if_neg hk] at h
      obtain ⟨ih1, ih2⟩ := ih h
      simp [setEntry, hk, ih1, ih2]

lemma lookup_of_mem_nodup (l : List (RId × Caller)) (r : RId) (c : Caller)
    (hnd : (l.map Prod.fst).Nodup) (hm : (r, c) ∈ l) :
    lookupEntry l r = some c := by
  induction l with
  | nil => simp at hm
  | cons p t ih =>
    rcases p with ⟨k, v⟩
    rcases List.mem_cons.mp hm with h | h
    · cases h
      simp [lookupEntry]
    · have hk : ¬ k = r := by
        intro hk
        subst hk
        have : k ∈ t.map Prod.fst := List.mem_map_of_mem Prod.fst h
        exact (List.nodup_cons.mp hnd).1 this
      rw [lookupEntry, if_neg hk]
      exact ih (List.nodup_cons.mp hnd).2 h

lemma lookup_some_mem (l : List (RId × Caller)) (r : RId) (c : Caller)
    (h : lookupEntry l r = some c) : (r, c) ∈ l := by
  induction l with
  | nil => simp [lookupEntry] at h
  | cons p t ih =>
    rcases p with ⟨k, v⟩
    by_cases hk : k = r
    · subst hk
      rw [lookupEntry, if_pos rfl] at h
      cases h
      exact List.mem_cons_self _ _
    · rw [lookupEntry, if_neg hk] at h
      exact List.mem_cons_of_mem _ (ih h)

lemma eraseKey_eq_erasePair (l : List (RId × Caller)) (r : RId) (c : Caller)
    (hnd : (l.map Prod.fst).Nodup) (h : lookupEntry l r = some c) :
    eraseKey l r = erasePair l (r, c) := by
  induction l with
  | nil => rfl
  | cons p t ih =>
    rcases p with ⟨k, v⟩
    by_cases hk : k = r
    · subst hk
      rw [lookupEntry, if_pos rfl] at h
      cases h
      simp [eraseKey, erasePair]
    · rw [lookupEntry, if_neg hk] at h
      have hne : ¬ ((k, v) = (r, c)) := by
        intro hh
        cases hh
        exact hk rfl
      simp [eraseKey, erasePair, hk, hne, ih (List.nodup_cons.mp hnd).2 h]

lemma eraseKey_sublist (l : List (RId × Caller)) (r : RId) :
    (eraseKey l r).Sublist l := by
  induction l with
  | nil => simp [eraseKey]
  | cons p t ih =>
    rcases p with ⟨k, v⟩
    by_cases hk : k = r
    · simp [eraseKey, hk]
    · simp [eraseKey, hk]
      exact ih

lemma lookup_eraseKey_self (l : List (RId × Caller)) (r : RId)
    (hnd : (l.map Prod.fst).Nodup) :
    lookupEntry (eraseKey l r) r = none := by
  induction l with
  | nil => rfl
  | cons p t ih =>
    rcases p with ⟨k, v⟩
    obtain ⟨hk1, hk2⟩ := List.nodup_cons.mp hnd
    by_cases hk : k = r
    · subst hk
      rw [eraseKey, if_pos rfl]
      rw [lookup_none_iff]
      exact hk1
    · rw [eraseKey, if_neg hk, lookupEntry, if_neg hk]
      exact ih hk2

lemma countP_eraseKey (l : List (RId × Caller)) (r : RId) (c : Caller)
    (p : RId × Caller → Bool) (h : lookupEntry l r = some c) :
    (eraseKey l r).countP p + (if p (r, c) then 1 else 0) = l.countP p := by
  induction l with
  | nil => simp [lookupEntry] at h
  | cons q t ih =>
    rcases q with ⟨k, v⟩
    by_cases hk : k = r
    · subst hk
      rw [lookupEntry, if_pos rfl] at h
      cases h
      rw [eraseKey, if_pos rfl, List.countP_cons]
    · rw [lookupEntry, if_neg hk] at h
      rw [eraseKey, if_neg hk, List.countP_cons, List.countP_cons]
      have := ih h
      omega

lemma countP_erasePair (l : List (RId × Caller)) (q : RId × Caller)
    (p : RId × Caller → Bool) (h : q ∈ l) :
    (erasePair l q).countP p + (if p q then 1 else 0) = l.countP p := by
  induction l with
  | nil => simp at h
  | cons x t ih =>
    by_cases hx : x = q
    · subst hx
      rw [erasePair, if_pos rfl, List.countP_cons]
    · rcases List.mem_cons.mp h with h1 | h1
      · exact absurd h1.symm hx
      · rw [erasePair, if_neg hx, List.countP_cons, List.countP_cons]
        have := ih h1
        omega

/-! ## Step-function structural lemmas -/

lemma settleCall_fields {Val : Type} (s : PMState Val) (c : Caller)
    (o : Outcome Val) (w : SettleWhy Val) :
    (settleCall s c o w).pending = s.pending ∧
    (settleCall s c o w).timers = s.timers ∧
    (settleCall s c o w).messageIdCounter = s.messageIdCounter ∧
    (settleCall s c o w).alive = s.alive ∧
    (settleCall s c o w).procId = s.procId ∧
    (settleCall s c o w).nAttempts = s.nAttempts := by
  unfold settleCall
  cases c with
  | ext n => exact ⟨rfl, rfl, rfl, rfl, rfl, rfl⟩
  | initOf k =>
    cases hA : s.attempt with
    | none =>
      exact ⟨rfl, rfl, rfl, rfl, rfl, rfl⟩
    | some kp =>
      rcases kp with ⟨k', ph⟩
      dsimp only
      by_cases hk : k = k'
      · rw [if_pos hk]
        cases o <;> exact ⟨rfl, rfl, rfl, rfl, rfl, rfl⟩
      · rw [if_neg hk]
        exact ⟨rfl, rfl, rfl, rfl, rfl, rfl⟩

lemma settleCall_isInit_fail {Val : Type} (s : PMState Val) (c : Caller)
    (e : String) (w : SettleWhy Val) :
    (settleCall s c (.fail e) w).isInit = s.isInit := by
  unfold settleCall
  cases c with
  | ext n => rfl
  | initOf k =>
    cases hA : s.attempt with
    | none => rfl
    | some kp =>
      rcases kp with ⟨k', ph⟩
      dsimp only
      by_cases hk : k = k'
      · rw [if_pos hk]
      · rw [if_neg hk]

lemma settleCall_log_shape {Val : Type} (s : PMState Val) (c : Caller)
    (o : Outcome Val) (w : SettleWhy Val) :
    ∃ ex : List (Entry Val),
      (settleCall s c o w).log = s.log ++ [.settled c o w] ++ ex ∧
      ∀ x ∈ ex, isInitExtra x = true := by
  unfold settleCall
  cases c with
  | ext n => exact ⟨[], by simp, by simp⟩
  | initOf k =>
    cases hA : s.attempt with
    | none =>
      exact ⟨[], by simp, by simp⟩
    | some kp =>
      rcases kp with ⟨k', ph⟩
      dsimp only
      by_cases hk : k = k'
      · rw [if_pos hk]
        cases o with
        | ok v =>
          refine ⟨[.attemptOk k s.procId], by simp, ?_⟩
          intro x hx
          rw [List.mem_singleton] at hx
          subst hx
          rfl
        | fail e =>
          refine ⟨(joinersOf s.joiners k).map
              (fun c => .settled c (.fail e) (.initFailed k)) ++
              [.attemptFailed k e], by simp, ?_⟩
          intro x hx
          rcases List.mem_append.mp hx with hx | hx
          · obtain ⟨c', _, rfl⟩ := List.mem_map.mp hx
            rfl
          · rw [List.mem_singleton] at hx
            subst hx
            rfl
      · rw [if_neg hk]
        exact ⟨[], by simp, by simp⟩

lemma settleCall_log_self {Val : Type} (s : PMState Val) (c : Caller)
    (o : Outcome Val) (w : SettleWhy Val) :
    Entry.settled c o w ∈ (settleCall s c o w).log := by
  obtain ⟨ex, hex, _⟩ := settleCall_log_shape s c o w
  rw [hex]
  simp

lemma settleCall_log_mono {Val : Type} (s : PMState Val) (c : Caller)
    (o : Outcome Val) (w : SettleWhy Val) :
    ∃ t, (settleCall s c o w).log = s.log ++ t := by
  obtain ⟨ex, hex, _⟩ := settleCall_log_shape s c o w
  exact ⟨[.settled c o w] ++ ex, by rw [hex, List.append_assoc]⟩

lemma settleCall_log_mem {Val : Type} (s : PMState Val) (c : Caller)
    (o : Outcome Val) (w : SettleWhy Val) (x : Entry Val)
    (hx : x ∈ (settleCall s c o w).log) :
    x ∈ s.log ∨ x = .settled c o w ∨ isInitExtra x = true := by
  obtain ⟨ex, hex, hall⟩ := settleCall_log_shape s c o w
  rw [hex] at hx
  rcases List.mem_append.mp hx with hx | hx
  · rcases List.mem_append.mp hx with hx | hx
    · exact Or.inl hx
    · rw [List.mem_singleton] at hx
      exact Or.inr (Or.inl hx)
  · exact Or.inr (Or.inr (hall x hx))

lemma settleCall_countP {Val : Type} (s : PMState Val) (c : Caller)
    (o : Outcome Val) (w : SettleWhy Val) (p : Entry Val → Bool)
    (hp : ∀ x : Entry Val, isInitExtra x = true → p x = false) :
    ((settleCall s c o w).log).countP p =
      s.log.countP p + (if p (.settled c o w) then 1 else 0) := by
  obtain ⟨ex, hex, hall⟩ := settleCall_log_shape s c o w
  rw [hex, List.countP_append, List.countP_append]
  have hz : ex.countP p = 0 := by
    rw [List.countP_eq_zero]
    intro x hx
    simp [hp x (hall x hx)]
  rw [hz, List.countP_cons, List.countP_nil]
  omega

lemma foldl_settle_fields {Val : Type} (o : Outcome Val) (w : SettleWhy Val)
    (rs : List (RId × Caller)) :
    ∀ s : PMState Val,
      (rs.foldl (fun acc q => settleCall acc q.2 o w) s).pending = s.pending ∧
      (rs.foldl (fun acc q => settleCall acc q.2 o w) s).timers = s.timers ∧
      (rs.foldl (fun acc q => settleCall acc q.2 o w) s).messageIdCounter =
        s.messageIdCounter ∧
      (rs.foldl (fun acc q => settleCall acc q.2 o w) s).alive = s.alive ∧
      (rs.foldl (fun acc q => settleCall acc q.2 o w) s).procId = s.procId ∧
      (rs.foldl (fun acc q => settleCall acc q.2 o w) s).nAttempts =
        s.nAttempts := by
  induction rs with
  | nil => intro s; exact ⟨rfl, rfl, rfl, rfl, rfl, rfl⟩
  | cons q t ih =>
    intro s
    obtain ⟨i1, i2, i3, i4, i5, i6⟩ := ih (settleCall s q.2 o w)
    obtain ⟨f1, f2, f3, f4, f5, f6⟩ := settleCall_fields s q.2 o w
    rw [List.foldl_cons]
    exact ⟨i1.trans f1, i2.trans f2, i3.trans f3, i4.trans f4,
      i5.trans f5, i6.trans f6⟩

lemma foldl_settle_isInit_fail {Val : Type} (e : String) (w : SettleWhy Val)
    (rs : List (RId × Caller)) :
    ∀ s : PMState Val,
      (rs.foldl (fun acc q => settleCall acc q.2 (.fail e) w) s).isInit =
        s.isInit := by
  induction rs with
  | nil => intro s; rfl
  | cons q t ih =>
    intro s
    rw [List.foldl_cons, ih, settleCall_isInit_fail]

lemma foldl_settle_log_mono {Val : Type} (o : Outcome Val) (w : SettleWhy Val)
    (rs : List (RId × Caller)) :
    ∀ s : PMState Val,
      ∃ t, (rs.foldl (fun acc q => settleCall acc q.2 o w) s).log =
        s.log ++ t := by
  induction rs with
  | nil => intro s; exact ⟨[], by simp⟩
  | cons q t ih =>
    intro s
    obtain ⟨t1, h1⟩ := settleCall_log_mono s q.2 o w
    obtain ⟨t2, h2⟩ := ih (settleCall s q.2 o w)
    exact ⟨t1 ++ t2, by rw [List.foldl_cons, h2, h1, List.append_assoc]⟩

lemma foldl_settle_self {Val : Type} (o : Outcome Val) (w : SettleWhy Val)
    (rs : List (RId × Caller)) :
    ∀ (s : PMState Val), ∀ q ∈ rs,
      Entry.settled q.2 o w ∈
        (rs.foldl (fun acc q => settleCall acc q.2 o w) s).log := by
  induction rs with
  | nil => intro s q hq; simp at hq
  | cons q0 t ih =>
    intro s q hq
    rw [List.foldl_cons]
    rcases List.mem_cons.mp hq with h | h
    · subst h
      obtain ⟨tl, hl⟩ := foldl_settle_log_mono o w t (settleCall s q.2 o w)
      rw [hl]
      exact List.mem_append_left _ (settleCall_log_self s q.2 o w)
    · exact ih (settleCall s q0.2 o w) q h

lemma foldl_settle_mem {Val : Type} (o : Outcome Val) (w : SettleWhy Val)
    (rs : List (RId × Caller)) :
    ∀ (s : PMState Val) (x : Entry Val),
      x ∈ (rs.foldl (fun acc q => settleCall acc q.2 o w) s).log →
      x ∈ s.log ∨ (∃ q ∈ rs, x = Entry.settled q.2 o w) ∨
        isInitExtra x = true := by
  induction rs with
  | nil => intro s x hx; exact Or.inl hx
  | cons q0 t ih =>
    intro s x hx
    rw [List.foldl_cons] at hx
    rcases ih (settleCall s q0.2 o w) x hx with h | h | h
    · rcases settleCall_log_mem s q0.2 o w x h with h1 | h1 | h1
      · exact Or.inl h1
      · exact Or.inr (Or.inl ⟨q0, List.mem_cons_self _ _, h1⟩)
      · exact Or.inr (Or.inr h1)
    · obtain ⟨q, hq, hxq⟩ := h
      exact Or.inr (Or.inl ⟨q, List.mem_cons_of_mem _ hq, hxq⟩)
    · exact Or.inr (Or.inr h)

lemma foldl_settle_countP {Val : Type} (o : Outcome Val) (w : SettleWhy Val)
    (rs : List (RId × Caller)) (p : Entry Val → Bool)
    (hp : ∀ x : Entry Val, isInitExtra x = true → p x = false) :
    ∀ s : PMState Val,
      ((rs.foldl (fun acc q => settleCall acc q.2 o w) s).log).countP p =
        s.log.countP p + rs.countP (fun q => p (.settled q.2 o w)) := by
  induction rs with
  | nil => intro s; simp
  | cons q0 t ih =>
    intro s
    rw [List.foldl_cons, ih, settleCall_countP s q0.2 o w p hp,
      List.countP_cons]
    omega

lemma dispatchRecord_of_fresh {Val : Type} (s : PMState Val) (cid : Caller)
    (rid : RId) (h : lookupEntry s.pending rid = none) :
    dispatchRecord s cid rid =
      { s with pending := s.pending ++ [(rid, cid)],
               timers := s.timers ++ [(rid, cid)],
               log := s.log ++ [.dispatched cid rid s.procId] } := by
  unfold dispatchRecord
  rw [setEntry_of_lookup_none s.pending rid cid h]

lemma dispatchRecord_log {Val : Type} (s : PMState Val) (cid : Caller)
    (rid : RId) :
    (dispatchRecord s cid rid).log = s.log ++
      (match (setEntry s.pending rid cid).2 with
       | some cOld => [Entry.removedRec rid cOld .overwritten]
       | none => []) ++ [.dispatched cid rid s.procId] := by
  unfold dispatchRecord
  cases hs : (setEntry s.pending rid cid).2 with
  | none => simp [hs]
  | some cOld => simp [hs]

lemma dispatchRecord_fields {Val : Type} (s : PMState Val) (cid : Caller)
    (rid : RId) :
    (dispatchRecord s cid rid).messageIdCounter = s.messageIdCounter ∧
    (dispatchRecord s cid rid).alive = s.alive ∧
    (dispatchRecord s cid rid).procId = s.procId ∧
    (dispatchRecord s cid rid).isInit = s.isInit ∧
    (dispatchRecord s cid rid).attempt = s.attempt ∧
    (dispatchRecord s cid rid).nAttempts = s.nAttempts ∧
    (dispatchRecord s cid rid).pending = (setEntry s.pending rid cid).1 ∧
    (dispatchRecord s cid rid).timers = s.timers ++ [(rid, cid)] := by
  unfold dispatchRecord
  cases hs : (setEntry s.pending rid cid).2 <;> simp [hs]

lemma ensureProc_of_alive {Val : Type} (s : PMState Val) (h : s.alive = true) :
    ensureProc s = s := by
  unfold ensureProc
  rw [h]
  rfl

lemma ensureProc_of_dead {Val : Type} (s : PMState Val) (h : s.alive = false) :
    ensureProc s =
      { s with alive := true, procId := s.procId + 1,
               log := s.log ++ [.spawned (s.procId + 1)] } := by
  unfold ensureProc
  rw [h]
  rfl

lemma ensureProc_fields {Val : Type} (s : PMState Val) :
    (ensureProc s).pending = s.pending ∧
    (ensureProc s).timers = s.timers ∧
    (ensureProc s).messageIdCounter = s.messageIdCounter ∧
    (ensureProc s).isInit = s.isInit ∧
    (ensureProc s).attempt = s.attempt ∧
    (ensureProc s).nAttempts = s.nAttempts := by
  unfold ensureProc
  cases h : s.alive <;> exact ⟨rfl, rfl, rfl, rfl, rfl, rfl⟩

lemma ensureProc_log_mono {Val : Type} (s : PMState Val) :
    ∃ t, (ensureProc s).log = s.log ++ t := by
  unfold ensureProc
  cases h : s.alive with
  | true => exact ⟨[], by simp⟩
  | false => exact ⟨[.spawned (s.procId + 1)], rfl⟩

lemma runPM_append {Val : Type} (tr : List (Ev Val)) (e : Ev Val) :
    runPM (tr ++ [e]) = stepPM (runPM tr) e := by
  unfold runPM
  rw [List.foldl_append]
  rfl

lemma handleMessage_matched {Val : Type} (s : PMState Val) (m : Msg Val)
    (rid : RId) (cid : Caller) (hm : m.mid = some rid)
    (hl : lookupEntry s.pending rid = some cid) :
    handleMessage s m = settleCall
      { s with pending := eraseKey s.pending rid,
               timers := erasePair s.timers (rid, cid),
               log := s.log ++ [.removedRec rid cid .matchedResponse] }
      cid (payloadOf m) (.response m) := by
  unfold handleMessage
  simp only [hm, hl]

lemma handleMessage_unmatched {Val : Type} (s : PMState Val) (m : Msg Val)
    (rid : RId) (hm : m.mid = some rid)
    (hl : lookupEntry s.pending rid = none) :
    handleMessage s m = notifyIfMethod s m := by
  unfold handleMessage
  simp only [hm, hl]

lemma handleMessage_nomid {Val : Type} (s : PMState Val) (m : Msg Val)
    (hm : m.mid = none) : handleMessage s m = notifyIfMethod s m := by
  unfold handleMessage
  simp only [hm]

lemma notifyIfMethod_none {Val : Type} (s : PMState Val) (m : Msg Val)
    (h : m.method = none) : notifyIfMethod s m = s := by
  unfold notifyIfMethod
  simp only [h]

lemma notifyIfMethod_some {Val : Type} (s : PMState Val) (m : Msg Val)
    (x : String) (h : m.method = some x) :
    notifyIfMethod s m = { s with log := s.log ++ [.notified m] } := by
  unfold notifyIfMethod
  simp only [h]

lemma fireTimer_active {Val : Type} (s : PMState Val) (rid : RId)
    (cid cid' : Caller) (hT : (rid, cid) ∈ s.timers)
    (hl : lookupEntry s.pending rid = some cid') :
    fireTimer s rid cid = settleCall
      { s with timers := erasePair s.timers (rid, cid),
               pending := eraseKey s.pending rid,
               log := s.log ++
                 [.removedRec rid cid'
                   (if cid' = cid then .ownTimeout else .foreignTimeout)] }
      cid (.fail "Request timeout") .timedOut := by
  unfold fireTimer
  rw [if_pos hT]
  simp only [hl]

lemma fireTimer_active_gone {Val : Type} (s : PMState Val) (rid : RId)
    (cid : Caller) (hT : (rid, cid) ∈ s.timers)
    (hl : lookupEntry s.pending rid = none) :
    fireTimer s rid cid = settleCall
      { s with timers := erasePair s.timers (rid, cid) }
      cid (.fail "Request timeout") .timedOut := by
  unfold fireTimer
  rw [if_pos hT]
  simp only [hl]

lemma fireTimer_inactive {Val : Type} (s : PMState Val) (rid : RId)
    (cid : Caller) (hT : (rid, cid) ∉ s.timers) :
    fireTimer s rid cid = s := by
  unfold fireTimer
  rw [if_neg hT]

lemma registerStep_some {Val : Type} (s : PMState Val) (cn : Nat) (r : RId) :
    registerStep s cn (some r) = dispatchRecord (ensureProc s) (.ext cn) r :=
  rfl

lemma registerStep_none {Val : Type} (s : PMState Val) (cn : Nat) :
    registerStep s cn none = dispatchRecord
      { ensureProc s with
        messageIdCounter := (ensureProc s).messageIdCounter + 1 }
      (.ext cn)
      (RId.num (Int.ofNat ((ensureProc s).messageIdCounter + 1))) :=
  rfl

lemma initCall_inited {Val : Type} (s : PMState Val) (c : Nat)
    (hI : s.isInit = true) : initCallStep s c = s := by
  unfold initCallStep
  simp only [hI]
  rfl

lemma initCall_join {Val : Type} (s : PMState Val) (c k : Nat)
    (ph : InitPhase) (hI : s.isInit = false) (hA : s.attempt = some (k, ph)) :
    initCallStep s c =
      { s with joiners := s.joiners ++ [(.ext c, k)],
               log := s.log ++ [.joinedInit (.ext c) k] } := by
  unfold initCallStep
  simp only [hI, hA]
  rfl

lemma initCall_start {Val : Type} (s : PMState Val) (c : Nat)
    (hI : s.isInit = false) (hA : s.attempt = none) :
    initCallStep s c =
      { s with attempt := some (s.nAttempts, .preSend),
               nAttempts := s.nAttempts + 1,
               joiners := s.joiners ++ [(.ext c, s.nAttempts)],
               log := s.log ++
                 [.initStarted s.nAttempts, .joinedInit (.ext c) s.nAttempts] } := by
  unfold initCallStep
  simp only [hI, hA]
  rfl

lemma initDispatch_preSend {Val : Type} (s : PMState Val) (k : Nat)
    (hA : s.attempt = some (k, .preSend)) :
    initDispatchStep s =
      { dispatchRecord (ensureProc s) (.initOf k) (RId.num 0) with
        attempt := some (k, .sent) } := by
  unfold initDispatchStep
  simp only [hA]

lemma initDispatch_none {Val : Type} (s : PMState Val)
    (hA : s.attempt = none) : initDispatchStep s = s := by
  unfold initDispatchStep
  simp only [hA]

lemma initDispatch_sent {Val : Type} (s : PMState Val) (k : Nat)
    (hA : s.attempt = some (k, .sent)) : initDispatchStep s = s := by
  unfold initDispatchStep
  simp only [hA]

lemma processExit_eq {Val : Type} (s : PMState Val) (code : Option Int)
    (signal : Option String) :
    processExitStep s code signal =
      s.pending.foldl
        (fun acc q => settleCall acc q.2 (.fail (exitMsg code)) (.exited code))
        { s with alive := false, isInit := false, pending := [],
                 timers := s.timers.filter (fun t => ¬ t ∈ s.pending),
                 log := s.log ++
                   s.pending.map (fun p => .removedRec p.1 p.2 .processExit) } :=
  rfl

lemma log_ext_trans {Val : Type} {a b c : List (Entry Val)}
    (h1 : ∃ t, b = a ++ t) (h2 : ∃ t, c = b ++ t) : ∃ t, c = a ++ t := by
  obtain ⟨t1, rfl⟩ := h1
  obtain ⟨t2, rfl⟩ := h2
  exact ⟨t1 ++ t2, by simp⟩

lemma dispatchRecord_log_mono {Val : Type} (s : PMState Val) (cid : Caller)
    (rid : RId) : ∃ t, (dispatchRecord s cid rid).log = s.log ++ t := by
  rw [dispatchRecord_log]
  exact ⟨_, List.append_assoc _ _ _⟩

lemma stepPM_log_mono {Val : Type} (s : PMState Val) (e : Ev Val) :
    ∃ t, (stepPM s e).log = s.log ++ t := by
  cases e with
  | register cn eid =>
    show ∃ t, (registerStep s cn eid).log = s.log ++ t
    cases eid with
    | some r =>
      rw [registerStep_some]
      exact log_ext_trans (ensureProc_log_mono s)
        (dispatchRecord_log_mono (ensureProc s) (.ext cn) r)
    | none =>
      rw [registerStep_none]
      refine log_ext_trans (ensureProc_log_mono s) ?_
      exact dispatchRecord_log_mono
        ({ ensureProc s with
           messageIdCounter := (ensureProc s).messageIdCounter + 1 })
        (.ext cn) _
  | inbound m =>
    show ∃ t, (handleMessage s m).log = s.log ++ t
    cases hm : m.mid with
    | none =>
      rw [handleMessage_nomid s m hm]
      cases hme : m.method with
      | none => rw [notifyIfMethod_none s m hme]; exact ⟨[], by simp⟩
      | some x => rw [notifyIfMethod_some s m x hme]; exact ⟨_, rfl⟩
    | some rid =>
      cases hl : lookupEntry s.pending rid with
      | none =>
        rw [handleMessage_unmatched s m rid hm hl]
        cases hme : m.method with
        | none => rw [notifyIfMethod_none s m hme]; exact ⟨[], by simp⟩
        | some x => rw [notifyIfMethod_some s m x hme]; exact ⟨_, rfl⟩
      | some cid =>
        rw [handleMessage_matched s m rid cid hm hl]
        refine log_ext_trans (⟨_, rfl⟩ :
          ∃ t, (s.log ++ [Entry.removedRec rid cid RemCause.matchedResponse]) =
            s.log ++ t) ?_
        exact settleCall_log_mono _ cid (payloadOf m) (.response m)
  | fire rid cid =>
    show ∃ t, (fireTimer s rid cid).log = s.log ++ t
    by_cases hT : (rid, cid) ∈ s.timers
    · cases hl : lookupEntry s.pending rid with
      | none =>
        rw [fireTimer_active_gone s rid cid hT hl]
        exact settleCall_log_mono _ cid (.fail "Request timeout") .timedOut
      | some cid' =>
        rw [fireTimer_active s rid cid cid' hT hl]
        refine log_ext_trans (⟨_, rfl⟩ :
          ∃ t, (s.log ++ [Entry.removedRec rid cid'
            (if cid' = cid then RemCause.ownTimeout else RemCause.foreignTimeout)]) =
            s.log ++ t) ?_
        exact settleCall_log_mono _ cid (.fail "Request timeout") .timedOut
    · rw [fireTimer_inactive s rid cid hT]
      exact ⟨[], by simp⟩
  | procExit code signal =>
    show ∃ t, (processExitStep s code signal).log = s.log ++ t
    rw [processExit_eq]
    refine log_ext_trans (⟨_, rfl⟩ :
      ∃ t, (s.log ++ s.pending.map
        (fun p => Entry.removedRec p.1 p.2 RemCause.processExit)) =
        s.log ++ t) ?_
    exact foldl_settle_log_mono _ _ s.pending _
  | callInit c =>
    show ∃ t, (initCallStep s c).log = s.log ++ t
    cases hI : s.isInit with
    | true => rw [initCall_inited s c hI]; exact ⟨[], by simp⟩
    | false =>
      cases hA : s.attempt with
      | some kp =>
        rw [initCall_join s c kp.1 kp.2 hI (by rw [hA])]
        exact ⟨_, rfl⟩
      | none =>
        rw [initCall_start s c hI hA]
        exact ⟨_, rfl⟩
  | initSendStep =>
    show ∃ t, (initDispatchStep s).log = s.log ++ t
    cases hA : s.attempt with
    | none => rw [initDispatch_none s hA]; exact ⟨[], by simp⟩
    | some kp =>
      rcases kp with ⟨k, ph⟩
      cases ph with
      | sent => rw [initDispatch_sent s k hA]; exact ⟨[], by simp⟩
      | preSend =>
        rw [initDispatch_preSend s k hA]
        show ∃ t, (dispatchRecord (ensureProc s) (.initOf k) (RId.num 0)).log =
          s.log ++ t
        exact log_ext_trans (ensureProc_log_mono s)
          (dispatchRecord_log_mono (ensureProc s) (.initOf k) (RId.num 0))


lemma noOverwrite_of_append {Val : Type} (a b : List (Entry Val))
    (h : noOverwrite (a ++ b)) : noOverwrite a := by
  unfold noOverwrite at h ⊢
  rw [List.all_append, Bool.and_eq_true] at h
  exact h.1

lemma nodup_concat_of {α : Type} (l : List α) (a : α) (h : l.Nodup)
    (ha : a ∉ l) : (l ++ [a]).Nodup := by
  rw [List.nodup_append]
  refine ⟨h, List.nodup_singleton a, ?_⟩
  intro x hx hxa
  rw [List.mem_singleton] at hxa
  subst hxa
  exact ha hx

lemma dispatchRecord_keys {Val : Type} (s : PMState Val) (cid : Caller)
    (rid : RId) (h : (s.pending.map Prod.fst).Nodup) :
    ((dispatchRecord s cid rid).pending.map Prod.fst).Nodup := by
  rw [(dispatchRecord_fields s cid rid).2.2.2.2.2.2.1]
  cases hl : lookupEntry s.pending rid with
  | none =>
    rw [setEntry_of_lookup_none s.pending rid cid hl]
    rw [List.map_append]
    exact nodup_concat_of _ rid h ((lookup_none_iff s.pending rid).mp hl)
  | some c0 =>
    rw [(setEntry_of_lookup_some s.pending rid cid c0 hl).2]
    exact h

lemma keys_nodup_step {Val : Type} (s : PMState Val) (e : Ev Val)
    (h : (s.pending.map Prod.fst).Nodup) :
    ((stepPM s e).pending.map Prod.fst).Nodup := by
  have hEp : (ensureProc s).pending = s.pending := (ensureProc_fields s).1
  cases e with
  | register cn eid =>
    show ((registerStep s cn eid).pending.map Prod.fst).Nodup
    cases eid with
    | some r =>
      rw [registerStep_some]
      exact dispatchRecord_keys _ _ _ (by rw [hEp]; exact h)
    | none =>
      rw [registerStep_none]
      exact dispatchRecord_keys _ _ _ (by show ((ensureProc s).pending.map Prod.fst).Nodup; rw [hEp]; exact h)
  | inbound m =>
    show ((handleMessage s m).pending.map Prod.fst).Nodup
    cases hm : m.mid with
    | none =>
      rw [handleMessage_nomid s m hm]
      cases hme : m.method with
      | none => rw [notifyIfMethod_none s m hme]; exact h
      | some x => rw [notifyIfMethod_some s m x hme]; exact h
    | some rid =>
      cases hl : lookupEntry s.pending rid with
      | none =>
        rw [handleMessage_unmatched s m rid hm hl]
        cases hme : m.method with
        | none => rw [notifyIfMethod_none s m hme]; exact h
        | some x => rw [notifyIfMethod_some s m x hme]; exact h
      | some cid =>
        rw [handleMessage_matched s m rid cid hm hl]
        rw [(settleCall_fields _ _ _ _).1]
        exact ((h.sublist ((eraseKey_sublist s.pending rid).map Prod.fst)))
  | fire rid cid =>
    show ((fireTimer s rid cid).pending.map Prod.fst).Nodup
    by_cases hT : (rid, cid) ∈ s.timers
    · cases hl : lookupEntry s.pending rid with
      | none =>
        rw [fireTimer_active_gone s rid cid hT hl, (settleCall_fields _ _ _ _).1]
        exact h
      | some cid' =>
        rw [fireTimer_active s rid cid cid' hT hl, (settleCall_fields _ _ _ _).1]
        exact ((h.sublist ((eraseKey_sublist s.pending rid).map Prod.fst)))
    · rw [fireTimer_inactive s rid cid hT]
      exact h
  | procExit code signal =>
    show ((processExitStep s code signal).pending.map Prod.fst).Nodup
    rw [processExit_eq, (foldl_settle_fields _ _ _ _).1]
    simp
  | callInit c =>
    show ((initCallStep s c).pending.map Prod.fst).Nodup
    cases hI : s.isInit with
    | true => rw [initCall_inited s c hI]; exact h
    | false =>
      cases hA : s.attempt with
      | some kp => rw [initCall_join s c kp.1 kp.2 hI (by rw [hA])]; exact h
      | none => rw [initCall_start s c hI hA]; exact h
  | initSendStep =>
    show ((initDispatchStep s).pending.map Prod.fst).Nodup
    cases hA : s.attempt with
    | none => rw [initDispatch_none s hA]; exact h
    | some kp =>
      rcases kp with ⟨k, ph⟩
      cases ph with
      | sent => rw [initDispatch_sent s k hA]; exact h
      | preSend =>
        rw [initDispatch_preSend s k hA]
        show ((dispatchRecord (ensureProc s) (.initOf k) (RId.num 0)).pending.map
          Prod.fst).Nodup
        exact dispatchRecord_keys _ _ _ (by rw [hEp]; exact h)

lemma runPM_keys_nodup {Val : Type} (tr : List (Ev Val)) :
    (((runPM tr).pending).map Prod.fst).Nodup := by
  induction tr using List.reverseRecOn with
  | nil => simp [runPM, PMState.start]
  | append_singleton tr e ih =>
    rw [runPM_append]
    exact keys_nodup_step _ e ih

/-! ## C4: timeout then late response -/

/-- C4: when a pending request's deadline fires, the record is removed
and the caller is rejected with the timeout error; a response bearing the
same identifier arriving afterwards leaves the state entirely unchanged
(dropped silently, nothing is resolved twice, nothing is thrown). -/
theorem timeout_then_late_response_dropped {Val : Type} (tr : List (Ev Val))
    (rid : RId) (cid : Caller) (m : Msg Val)
    (hT : (rid, cid) ∈ (runPM tr).timers)
    (hP : lookupEntry (runPM tr).pending rid = some cid)
    (hm : m.mid = some rid) (hmeth : m.method = none) :
    Entry.settled cid (Outcome.fail "Request timeout") SettleWhy.timedOut ∈
      (stepPM (runPM tr) (.fire rid cid)).log ∧
    lookupEntry (stepPM (runPM tr) (.fire rid cid)).pending rid = none ∧
    stepPM (stepPM (runPM tr) (.fire rid cid)) (.inbound m) =
      stepPM (runPM tr) (.fire rid cid) := by
  have hnd := runPM_keys_nodup tr
  have hstep : stepPM (runPM tr) (.fire rid cid) = settleCall
      { runPM tr with
        timers := erasePair (runPM tr).timers (rid, cid),
        pending := eraseKey (runPM tr).pending rid,
        log := (runPM tr).log ++
          [.removedRec rid cid
            (if cid = cid then .ownTimeout else .foreignTimeout)] }
      cid (.fail "Request timeout") .timedOut :=
    fireTimer_active (runPM tr) rid cid cid hT hP
  have hpend : (stepPM (runPM tr) (.fire rid cid)).pending =
      eraseKey (runPM tr).pending rid := by
    rw [hstep, (settleCall_fields _ _ _ _).1]
  have hlook : lookupEntry (stepPM (runPM tr) (.fire rid cid)).pending rid =
      none := by
    rw [hpend]
    exact lookup_eraseKey_self (runPM tr).pending rid hnd
  refine ⟨?_, hlook, ?_⟩
  · rw [hstep]
    exact settleCall_log_self _ cid (.fail "Request timeout") .timedOut
  · show handleMessage (stepPM (runPM tr) (.fire rid cid)) m = _
    rw [handleMessage_unmatched _ m rid hm hlook,
      notifyIfMethod_none _ m hmeth]

/-- Witness for `timeout_then_late_response_dropped`: one registered
request, its timer fires, then its response arrives late. -/
theorem timeout_then_late_response_dropped_witness :
    ((RId.num 1, Caller.ext 1) ∈
      (runPM ([Ev.register 1 (none : Option RId)] : List (Ev Nat))).timers) ∧
    Entry.settled (Caller.ext 1) (Outcome.fail "Request timeout")
        SettleWhy.timedOut ∈
      (stepPM (runPM ([Ev.register 1 (none : Option RId)] : List (Ev Nat)))
        (.fire (RId.num 1) (Caller.ext 1))).log :=
  ⟨by decide,
   (timeout_then_late_response_dropped [Ev.register 1 none] (RId.num 1)
      (Caller.ext 1)
      (⟨some (RId.num 1), some 7, none, none⟩ : Msg Nat)
      (by decide) (by decide) (by decide) (by decide)).1⟩

/-! ## C5: process exit -/

/-- Counterexample for C5: the rejection surfaced to pending callers on
process exit does not carry the signal — exits that differ only in the
signal produce identical states, and the surfaced message for a
signal-kill (`code = null`) names only the code. -/
theorem exit_reject_ignores_signal_cex :
    (stepPM (runPM ([Ev.register 1 (none : Option RId)] : List (Ev Nat)))
        (.procExit none (some "SIGKILL")) =
      stepPM (runPM ([Ev.register 1 (none : Option RId)] : List (Ev Nat)))
        (.procExit none (some "SIGTERM"))) ∧
    Entry.settled (Caller.ext 1)
        (Outcome.fail "Process exited before response (code: null)")
        (SettleWhy.exited none) ∈
      (stepPM (runPM ([Ev.register 1 (none : Option RId)] : List (Ev Nat)))
        (.procExit none (some "SIGKILL"))).log := by
  exact ⟨rfl, by decide⟩

/-- C5 (amended): on process exit every pending record is rejected with
the exit-code error, its timer is cancelled, and the table is left empty
with the manager not-alive and uninitialized; a later `sendMessage`
arriving in that state (no handshake in flight) starts the handshake
rather than dispatching, and the handshake's dispatch step spawns a fresh
subprocess and sends the `initialize` round-trip to it. -/
theorem exit_purges_and_respawn {Val : Type} (tr : List (Ev Val))
    (code : Option Int) (signal : Option String) :
    (stepPM (runPM tr) (.procExit code signal)).pending = [] ∧
    (stepPM (runPM tr) (.procExit code signal)).alive = false ∧
    (stepPM (runPM tr) (.procExit code signal)).isInit = false ∧
    (∀ p ∈ (runPM tr).pending,
      Entry.settled p.2 (Outcome.fail (exitMsg code)) (SettleWhy.exited code) ∈
        (stepPM (runPM tr) (.procExit code signal)).log) ∧
    (∀ p ∈ (runPM tr).pending,
      p ∉ (stepPM (runPM tr) (.procExit code signal)).timers) ∧
    ((stepPM (runPM tr) (.procExit code signal)).attempt = none →
      sendDecision (stepPM (runPM tr) (.procExit code signal)) =
        SendDecision.startHandshake) ∧
    (∀ c : Nat, (stepPM (runPM tr) (.procExit code signal)).attempt = none →
      Entry.spawned ((runPM tr).procId + 1) ∈
        (stepPM (stepPM (stepPM (runPM tr) (.procExit code signal))
          (.callInit c)) .initSendStep).log ∧
      Entry.dispatched (Caller.initOf
          (stepPM (runPM tr) (.procExit code signal)).nAttempts)
          (RId.num 0) ((runPM tr).procId + 1) ∈
        (stepPM (stepPM (stepPM (runPM tr) (.procExit code signal))
          (.callInit c)) .initSendStep).log) := by
  set s := runPM tr with hs
  have hstep : stepPM s (.procExit code signal) =
      s.pending.foldl
        (fun acc q => settleCall acc q.2 (.fail (exitMsg code)) (.exited code))
        { s with alive := false, isInit := false, pending := [],
                 timers := s.timers.filter (fun t => ¬ t ∈ s.pending),
                 log := s.log ++
                   s.pending.map (fun p => .removedRec p.1 p.2 .processExit) } :=
    processExit_eq s code signal
  have hpend : (stepPM s (.procExit code signal)).pending = [] := by
    rw [hstep, (foldl_settle_fields _ _ _ _).1]
  have halive : (stepPM s (.procExit code signal)).alive = false := by
    rw [hstep, (foldl_settle_fields _ _ _ _).2.2.2.1]
  have hinit : (stepPM s (.procExit code signal)).isInit = false := by
    rw [hstep, foldl_settle_isInit_fail]
  have htimers : (stepPM s (.procExit code signal)).timers =
      s.timers.filter (fun t => ¬ t ∈ s.pending) := by
    rw [hstep, (foldl_settle_fields _ _ _ _).2.1]
  have hprocId : (stepPM s (.procExit code signal)).procId = s.procId := by
    rw [hstep, (foldl_settle_fields _ _ _ _).2.2.2.2.1]
  refine ⟨hpend, halive, hinit, ?_, ?_, ?_, ?_⟩
  · intro p hp
    rw [hstep]
    exact foldl_settle_self _ _ s.pending _ p hp
  · intro p hp hmem
    rw [htimers] at hmem
    have := List.of_mem_filter hmem
    simp at this
    exact this hp
  · intro hA
    unfold sendDecision
    rw [if_pos ⟨hinit, hA⟩]
  · intro c hA
    have hcall : stepPM (stepPM s (.procExit code signal)) (.callInit c) =
        { stepPM s (.procExit code signal) with
          attempt := some ((stepPM s (.procExit code signal)).nAttempts, .preSend),
          nAttempts := (stepPM s (.procExit code signal)).nAttempts + 1,
          joiners := (stepPM s (.procExit code signal)).joiners ++
            [(.ext c, (stepPM s (.procExit code signal)).nAttempts)],
          log := (stepPM s (.procExit code signal)).log ++
            [.initStarted (stepPM s (.procExit code signal)).nAttempts,
             .joinedInit (.ext c)
               (stepPM s (.procExit code signal)).nAttempts] } :=
      initCall_start _ c hinit hA
    have hA2 : (stepPM (stepPM s (.procExit code signal)) (.callInit c)).attempt =
        some ((stepPM s (.procExit code signal)).nAttempts, .preSend) := by
      rw [hcall]
    have hal2 : (stepPM (stepPM s (.procExit code signal)) (.callInit c)).alive =
        false := by
      rw [hcall]
      exact halive
    have hpend2 : (stepPM (stepPM s (.procExit code signal)) (.callInit c)).pending =
        [] := by
      rw [hcall]
      exact hpend
    have hpid2 : (stepPM (stepPM s (.procExit code signal)) (.callInit c)).procId =
        s.procId := by
      rw [hcall]
      exact hprocId
    have hdsp : stepPM (stepPM (stepPM s (.procExit code signal)) (.callInit c))
          .initSendStep =
        { dispatchRecord
            (ensureProc (stepPM (stepPM s (.procExit code signal)) (.callInit c)))
            (.initOf (stepPM s (.procExit code signal)).nAttempts) (RId.num 0) with
          attempt := some ((stepPM s (.procExit code signal)).nAttempts, .sent) } :=
      initDispatch_preSend _ _ hA2
    have hEns : ensureProc (stepPM (stepPM s (.procExit code signal)) (.callInit c)) =
        { stepPM (stepPM s (.procExit code signal)) (.callInit c) with
          alive := true,
          procId := (stepPM (stepPM s (.procExit code signal)) (.callInit c)).procId + 1,
          log := (stepPM (stepPM s (.procExit code signal)) (.callInit c)).log ++
            [.spawned ((stepPM (stepPM s (.procExit code signal)) (.callInit c)).procId + 1)] } :=
      ensureProc_of_dead _ hal2
    have hfresh : lookupEntry
        (ensureProc (stepPM (stepPM s (.procExit code signal)) (.callInit c))).pending
        (RId.num 0) = none := by
      rw [hEns]
      show lookupEntry
        (stepPM (stepPM s (.procExit code signal)) (.callInit c)).pending
        (RId.num 0) = none
      rw [hpend2]
      rfl
    have hDlog := dispatchRecord_log
      (ensureProc (stepPM (stepPM s (.procExit code signal)) (.callInit c)))
      (.initOf (stepPM s (.procExit code signal)).nAttempts) (RId.num 0)
    rw [setEntry_of_lookup_none _ _ _ hfresh] at hDlog
    have hlog3 : (stepPM (stepPM (stepPM s (.procExit code signal)) (.callInit c))
          .initSendStep).log =
        (ensureProc (stepPM (stepPM s (.procExit code signal)) (.callInit c))).log ++
          [] ++
          [.dispatched (.initOf (stepPM s (.procExit code signal)).nAttempts)
            (RId.num 0)
            (ensureProc (stepPM (stepPM s (.procExit code signal)) (.callInit c))).procId] := by
      rw [hdsp]
      exact hDlog
    have hpid3 : (ensureProc (stepPM (stepPM s (.procExit code signal))
        (.callInit c))).procId = s.procId + 1 := by
      rw [hEns]
      show (stepPM (stepPM s (.procExit code signal)) (.callInit c)).procId + 1 =
        s.procId + 1
      rw [hpid2]
    constructor
    · rw [hlog3, hEns]
      show Entry.spawned (s.procId + 1) ∈
        ((stepPM (stepPM s (.procExit code signal)) (.callInit c)).log ++
          [Entry.spawned
            ((stepPM (stepPM s (.procExit code signal)) (.callInit c)).procId + 1)]) ++
          [] ++ _
      rw [hpid2]
      simp
    · rw [hlog3, hpid3]
      simp

/-- Witness for `exit_purges_and_respawn`: one pending request, the
subprocess exits with code 1, a fresh call triggers respawn+handshake. -/
theorem exit_purges_and_respawn_witness :
    ((RId.num 1, Caller.ext 1) ∈
      (runPM ([Ev.register 1 (none : Option RId)] : List (Ev Nat))).pending) ∧
    Entry.settled (Caller.ext 1) (Outcome.fail (exitMsg (some 1)))
        (SettleWhy.exited (some 1)) ∈
      (stepPM (runPM ([Ev.register 1 (none : Option RId)] : List (Ev Nat)))
        (.procExit (some 1) none)).log :=
  ⟨by decide,
   (exit_purges_and_respawn [Ev.register 1 none] (some 1) none).2.2.2.1
     (RId.num 1, Caller.ext 1) (by decide)⟩

/-! ## C6: handshake single-flight -/

lemma payloadOf_err {Val : Type} (m : Msg Val) (e : String)
    (he : m.errorMessage = some e) : payloadOf m = .fail (msgOr e) := by
  unfold payloadOf
  rw [he]

lemma settleCall_initFail {Val : Type} (s : PMState Val) (k : Nat)
    (ph : InitPhase) (e : String) (w : SettleWhy Val)
    (hA : s.attempt = some (k, ph)) :
    settleCall s (.initOf k) (.fail e) w =
      { s with attempt := none,
               joiners := s.joiners.filter (fun p => p.2 ≠ k),
               log := s.log ++ [.settled (.initOf k) (.fail e) w] ++
                 (joinersOf s.joiners k).map
                   (fun c => .settled c (.fail e) (.initFailed k)) ++
                 [.attemptFailed k e] } := by
  unfold settleCall
  dsimp only
  rw [hA]
  simp

/-- Counterexample for C6: one spawn, but two `initialize` round-trips
reach the same subprocess — the first handshake attempt times out with
the process still alive, and the retry sends a second `initialize` to
the very same process (proc 1). -/
theorem handshake_two_roundtrips_one_spawn_cex :
    (runPM trC6).log.countP isSpawnedEntry = 1 ∧
    Entry.dispatched (Caller.initOf 0) (RId.num 0) 1 ∈ (runPM trC6).log ∧
    Entry.dispatched (Caller.initOf 1) (RId.num 0) 1 ∈ (runPM trC6).log := by
  refine ⟨?_, ?_, ?_⟩ <;> decide

/-- C6 (amended): while a handshake attempt is in flight every further
`initialize` caller joins that same attempt (no second attempt, no second
round-trip is started); on failure of the attempt — an error response to
the `initialize` request, or its timeout — every joiner is rejected with
the same error, the attempt is cleared and the state is back to
uninitialized so a later call retries. -/
theorem handshake_single_flight {Val : Type} :
    (∀ (s : PMState Val) (c k : Nat) (ph : InitPhase),
      s.isInit = false → s.attempt = some (k, ph) →
      stepPM s (.callInit c) =
        { s with joiners := s.joiners ++ [(Caller.ext c, k)],
                 log := s.log ++ [Entry.joinedInit (Caller.ext c) k] }) ∧
    (∀ (s : PMState Val) (m : Msg Val) (k : Nat) (e : String),
      s.isInit = false → s.attempt = some (k, InitPhase.sent) →
      lookupEntry s.pending (RId.num 0) = some (Caller.initOf k) →
      m.mid = some (RId.num 0) → m.errorMessage = some e →
      (stepPM s (.inbound m)).attempt = none ∧
      (stepPM s (.inbound m)).isInit = false ∧
      sendDecision (stepPM s (.inbound m)) = SendDecision.startHandshake ∧
      (∀ c ∈ joinersOf s.joiners k,
        Entry.settled c (Outcome.fail (msgOr e)) (SettleWhy.initFailed k) ∈
          (stepPM s (.inbound m)).log)) ∧
    (∀ (s : PMState Val) (k : Nat),
      s.isInit = false → s.attempt = some (k, InitPhase.sent) →
      (RId.num 0, Caller.initOf k) ∈ s.timers →
      lookupEntry s.pending (RId.num 0) = some (Caller.initOf k) →
      (stepPM s (.fire (RId.num 0) (Caller.initOf k))).attempt = none ∧
      (stepPM s (.fire (RId.num 0) (Caller.initOf k))).isInit = false ∧
      (∀ c ∈ joinersOf s.joiners k,
        Entry.settled c (Outcome.fail "Request timeout")
            (SettleWhy.initFailed k) ∈
          (stepPM s (.fire (RId.num 0) (Caller.initOf k))).log)) := by
  refine ⟨?_, ?_, ?_⟩
  · intro s c k ph hI hA
    exact initCall_join s c k ph hI hA
  · intro s m k e hI hA hl hm he
    have hstep : stepPM s (.inbound m) = settleCall
        { s with pending := eraseKey s.pending (RId.num 0),
                 timers := erasePair s.timers (RId.num 0, Caller.initOf k),
                 log := s.log ++
                   [.removedRec (RId.num 0) (.initOf k) .matchedResponse] }
        (.initOf k) (payloadOf m) (.response m) :=
      handleMessage_matched s m (RId.num 0) (.initOf k) hm hl
    rw [payloadOf_err m e he] at hstep
    rw [hstep, settleCall_initFail _ k InitPhase.sent (msgOr e) _ (by exact hA)]
    refine ⟨rfl, hI, ?_, ?_⟩
    · unfold sendDecision
      rw [if_pos ⟨hI, rfl⟩]
    · intro c hc
      show Entry.settled c (Outcome.fail (msgOr e)) (SettleWhy.initFailed k) ∈
        _ ++ [Entry.settled (Caller.initOf k) (Outcome.fail (msgOr e))
          (SettleWhy.response m)] ++
        (joinersOf s.joiners k).map
          (fun c => Entry.settled c (Outcome.fail (msgOr e))
            (SettleWhy.initFailed k)) ++ [Entry.attemptFailed k (msgOr e)]
      refine List.mem_append_left _ (List.mem_append_right _ ?_)
      exact List.mem_map_of_mem _ hc
  · intro s k hI hA hT hl
    have hstep : stepPM s (.fire (RId.num 0) (Caller.initOf k)) = settleCall
        { s with timers := erasePair s.timers (RId.num 0, Caller.initOf k),
                 pending := eraseKey s.pending (RId.num 0),
                 log := s.log ++
                   [.removedRec (RId.num 0) (.initOf k)
                     (if Caller.initOf k = Caller.initOf k then .ownTimeout
                      else .foreignTimeout)] }
        (.initOf k) (.fail "Request timeout") .timedOut :=
      fireTimer_active s (RId.num 0) (Caller.initOf k) (Caller.initOf k) hT hl
    rw [hstep, settleCall_initFail _ k InitPhase.sent "Request timeout" _
      (by exact hA)]
    refine ⟨rfl, hI, ?_⟩
    intro c hc
    show Entry.settled c (Outcome.fail "Request timeout")
        (SettleWhy.initFailed k) ∈
      _ ++ [Entry.settled (Caller.initOf k) (Outcome.fail "Request timeout")
        SettleWhy.timedOut] ++
      (joinersOf s.joiners k).map
        (fun c => Entry.settled c (Outcome.fail "Request timeout")
          (SettleWhy.initFailed k)) ++ [Entry.attemptFailed k "Request timeout"]
    refine List.mem_append_left _ (List.mem_append_right _ ?_)
    exact List.mem_map_of_mem _ hc

/-- Witness for `handshake_single_flight`: the in-flight attempt of a
fresh manager fails via an error response to `initialize`; the state is
uninitialized again with no attempt in flight. -/
theorem handshake_single_flight_witness :
    ((runPM ([Ev.callInit 1, Ev.initSendStep] : List (Ev Nat))).isInit = false) ∧
    (stepPM (runPM ([Ev.callInit 1, Ev.initSendStep] : List (Ev Nat)))
      (.inbound ⟨some (RId.num 0), none, some "boom", none⟩)).attempt = none :=
  ⟨by decide,
   (handshake_single_flight.2.1 (runPM [Ev.callInit 1, Ev.initSendStep])
      ⟨some (RId.num 0), none, some "boom", none⟩ 0 "boom" (by decide)
      (by decide) (by decide) (by decide) (by decide)).1⟩

/-! ## C1: correlation and exactly-once removal -/

lemma noOverwrite_mem {Val : Type} (lg : List (Entry Val))
    (h : noOverwrite lg) (x : Entry Val) (hx : x ∈ lg) :
    isOverwriteRem x = false := by
  unfold noOverwrite at h
  rw [List.all_eq_true] at h
  have := h x hx
  simpa using this

lemma setEntry_snd_none_lookup (l : List (RId × Caller)) (r : RId)
    (c : Caller) (h : (setEntry l r c).2 = none) :
    lookupEntry l r = none := by
  induction l with
  | nil => rfl
  | cons p t ih =>
    rcases p with ⟨k, v⟩
    by_cases hk : k = r
    · subst hk
      simp [setEntry] at h
    · rw [lookupEntry, if_neg hk]
      rw [setEntry, if_neg hk] at h
      exact ih (by simpa using h)

lemma isTableSettle_response {Val : Type} (n : Nat) (c : Caller)
    (out : Outcome Val) (m : Msg Val) :
    isTableSettle n (Entry.settled c out (SettleWhy.response m)) =
      decide (c = Caller.ext n) := by
  cases c <;> simp [isTableSettle]

lemma isTableSettle_timedOut {Val : Type} (n : Nat) (c : Caller)
    (out : Outcome Val) :
    isTableSettle n (Entry.settled c out SettleWhy.timedOut) =
      decide (c = Caller.ext n) := by
  cases c <;> simp [isTableSettle]

lemma isTableSettle_exited {Val : Type} (n : Nat) (c : Caller)
    (out : Outcome Val) (code : Option Int) :
    isTableSettle n (Entry.settled c out (SettleWhy.exited code)) =
      decide (c = Caller.ext n) := by
  cases c <;> simp [isTableSettle]

lemma isTableSettle_initExtra {Val : Type} (n : Nat) (x : Entry Val)
    (hx : isInitExtra x = true) : isTableSettle n x = false := by
  cases x with
  | settled c out why =>
    cases why with
    | initFailed k => cases c <;> simp [isTableSettle]
    | response m => simp [isInitExtra] at hx
    | timedOut => simp [isInitExtra] at hx
    | exited code => simp [isInitExtra] at hx
  | spawned q => rfl
  | dispatched a b q => rfl
  | removedRec a b q => rfl
  | notified m => rfl
  | initStarted k => rfl
  | joinedInit c k => rfl
  | attemptOk k q => rfl
  | attemptFailed k e => rfl

lemma regTokens_append {Val : Type} (a b : List (Ev Val)) :
    regTokens (a ++ b) = regTokens a ++ regTokens b := by
  unfold regTokens
  rw [List.filterMap_append]

lemma ensureProc_log_cases {Val : Type} (s : PMState Val) :
    (ensureProc s).log = s.log ∨
    (ensureProc s).log = s.log ++ [Entry.spawned (s.procId + 1)] := by
  unfold ensureProc
  cases h : s.alive with
  | true => exact Or.inl rfl
  | false => exact Or.inr rfl

lemma dispatch_fresh_of_no_overwrite {Val : Type} (s0 : PMState Val)
    (cid : Caller) (rid : RId)
    (h : noOverwrite (dispatchRecord s0 cid rid).log) :
    lookupEntry s0.pending rid = none := by
  cases hs : (setEntry s0.pending rid cid).2 with
  | none => exact setEntry_snd_none_lookup _ _ _ hs
  | some cOld =>
    exfalso
    have hmem : Entry.removedRec rid cOld RemCause.overwritten ∈
        (dispatchRecord s0 cid rid).log := by
      rw [dispatchRecord_log, hs]
      simp
    have := noOverwrite_mem _ h _ hmem
    simp [isOverwriteRem] at this

lemma dispatch_effect {Val : Type} (s0 : PMState Val) (cid : Caller)
    (rid : RId) (hfresh : lookupEntry s0.pending rid = none) :
    (dispatchRecord s0 cid rid).pending = s0.pending ++ [(rid, cid)] ∧
    (dispatchRecord s0 cid rid).timers = s0.timers ++ [(rid, cid)] ∧
    (dispatchRecord s0 cid rid).log =
      s0.log ++ [Entry.dispatched cid rid s0.procId] := by
  rw [dispatchRecord_of_fresh s0 cid rid hfresh]
  exact ⟨rfl, rfl, rfl⟩

lemma register_like {Val : Type} (s s0 : PMState Val) (cid : Caller)
    (rid : RId) (hp : s0.pending = s.pending) (ht : s0.timers = s.timers)
    (hl : s0.log = s.log ∨ s0.log = s.log ++ [Entry.spawned (s.procId + 1)])
    (hno : noOverwrite (dispatchRecord s0 cid rid).log)
    (ihT : s.timers = s.pending) :
    (dispatchRecord s0 cid rid).timers = (dispatchRecord s0 cid rid).pending ∧
    (∀ x : Entry Val, x ∈ (dispatchRecord s0 cid rid).log →
      x ∈ s.log ∨ isSpawnedEntry x = true ∨
        x = Entry.dispatched cid rid s0.procId) ∧
    (∀ n, tableSettleCount (dispatchRecord s0 cid rid).log n =
      tableSettleCount s.log n) ∧
    (∀ n, pendCount (dispatchRecord s0 cid rid).pending n =
      pendCount s.pending n + (if cid = Caller.ext n then 1 else 0)) := by
  have hfresh := dispatch_fresh_of_no_overwrite s0 cid rid hno
  obtain ⟨e1, e2, e3⟩ := dispatch_effect s0 cid rid hfresh
  refine ⟨?_, ?_, ?_, ?_⟩
  · rw [e1, e2, hp, ht, ihT]
  · intro x hx
    rw [e3] at hx
    rcases List.mem_append.mp hx with hx | hx
    · rcases hl with hl | hl
      · rw [hl] at hx
        exact Or.inl hx
      · rw [hl] at hx
        rcases List.mem_append.mp hx with hx | hx
        · exact Or.inl hx
        · rw [List.mem_singleton] at hx
          subst hx
          exact Or.inr (Or.inl rfl)
    · rw [List.mem_singleton] at hx
      subst hx
      exact Or.inr (Or.inr rfl)
  · intro n
    unfold tableSettleCount
    rw [e3, List.countP_append]
    have h1 : List.countP (isTableSettle n)
        ([Entry.dispatched cid rid s0.procId] : List (Entry Val)) = 0 := rfl
    rw [h1]
    rcases hl with hl | hl
    · rw [hl]
      omega
    · rw [hl, List.countP_append]
      have h2 : List.countP (isTableSettle n)
          ([Entry.spawned (s.procId + 1)] : List (Entry Val)) = 0 := rfl
      rw [h2]
      omega
  · intro n
    unfold pendCount
    rw [e1, hp, List.countP_append, List.countP_cons, List.countP_nil]
    by_cases hc : cid = Caller.ext n <;> simp [hc]

lemma pm_main {Val : Type} (tr : List (Ev Val)) :
    noOverwrite (runPM tr).log →
    (runPM tr).timers = (runPM tr).pending ∧
    (∀ rid cid why, Entry.removedRec rid cid why ∈ (runPM tr).log →
      why = RemCause.matchedResponse ∨ why = RemCause.ownTimeout ∨
        why = RemCause.processExit) ∧
    (∀ cid out m,
      Entry.settled cid out (SettleWhy.response m) ∈ (runPM tr).log →
      out = payloadOf m ∧ ∃ rid, m.mid = some rid ∧
        Entry.removedRec rid cid RemCause.matchedResponse ∈ (runPM tr).log) ∧
    (∀ n, tableSettleCount (runPM tr).log n + pendCount (runPM tr).pending n ≤
      (regTokens tr).count n) := by
  induction tr using List.reverseRecOn with
  | nil =>
    intro _
    refine ⟨rfl, ?_, ?_, ?_⟩
    · intro rid cid why h
      simp [runPM, PMState.start] at h
    · intro cid out m h
      simp [runPM, PMState.start] at h
    · intro n
      simp [runPM, PMState.start, tableSettleCount, pendCount, regTokens]
  | append_singleton tr e ih =>
    intro hno
    obtain ⟨tnew, hlogm⟩ := stepPM_log_mono (runPM tr) e
    rw [runPM_append] at hno
    have hno' : noOverwrite (runPM tr).log := by
      rw [hlogm] at hno
      exact noOverwrite_of_append _ _ hno
    obtain ⟨ihT, ihR, ihS, ihC⟩ := ih hno'
    have hnd := runPM_keys_nodup tr
    have hmono : ∀ x : Entry Val, x ∈ (runPM tr).log →
        x ∈ (stepPM (runPM tr) e).log := by
      intro x hx
      rw [hlogm]
      exact List.mem_append_left _ hx
    rw [runPM_append, regTokens_append]
    cases e with
    | register cn eid =>
      have hregTok : (regTokens ([Ev.register cn eid] : List (Ev Val))) = [cn] := rfl
      rw [hregTok]
      cases eid with
      | some r =>
        have hstep : stepPM (runPM tr) (Ev.register cn (some r)) =
            dispatchRecord (ensureProc (runPM tr)) (.ext cn) r :=
          registerStep_some _ _ _
        rw [hstep] at hno ⊢
        obtain ⟨r1, r2, r3, r4⟩ := register_like (runPM tr)
          (ensureProc (runPM tr)) (.ext cn) r (ensureProc_fields _).1
          (ensureProc_fields _).2.1 (ensureProc_log_cases _) hno ihT
        refine ⟨r1, ?_, ?_, ?_⟩
        · intro rid cid why h
          rcases r2 _ h with h | h | h
          · exact ihR rid cid why h
          · simp [isSpawnedEntry] at h
          · simp at h
        · intro cid out m h
          rcases r2 _ h with h | h | h
          · obtain ⟨hpl, rid, hrid, hrem⟩ := ihS cid out m h
            refine ⟨hpl, rid, hrid, ?_⟩
            rw [← hstep]
            exact hmono _ hrem
          · simp [isSpawnedEntry] at h
          · simp at h
        · intro n
          rw [r3, r4]
          have := ihC n
          by_cases hc : (Caller.ext cn : Caller) = Caller.ext n
          · have hcn : cn = n := by
              cases hc
              rfl
            subst hcn
            simp [List.count_append]
            omega
          · have hcn : ¬ cn = n := by
              intro hh
              exact hc (by rw [hh])
            rw [if_neg hc]
            rw [List.count_append]
            have hone : List.count n [cn] = 0 := by
              rw [List.count_singleton]
              simp [hcn]
            omega
      | none =>
        have hstep : stepPM (runPM tr) (Ev.register cn none) =
            dispatchRecord
              { ensureProc (runPM tr) with
                messageIdCounter :=
                  (ensureProc (runPM tr)).messageIdCounter + 1 }
              (.ext cn)
              (RId.num (Int.ofNat
                ((ensureProc (runPM tr)).messageIdCounter + 1))) :=
          registerStep_none _ _
        rw [hstep] at hno ⊢
        obtain ⟨r1, r2, r3, r4⟩ := register_like (runPM tr)
          ({ ensureProc (runPM tr) with
             messageIdCounter := (ensureProc (runPM tr)).messageIdCounter + 1 })
          (.ext cn) _ (ensureProc_fields _).1
          (ensureProc_fields _).2.1 (ensureProc_log_cases _) hno ihT
        refine ⟨r1, ?_, ?_, ?_⟩
        · intro rid cid why h
          rcases r2 _ h with h | h | h
          · exact ihR rid cid why h
          · simp [isSpawnedEntry] at h
          · simp at h
        · intro cid out m h
          rcases r2 _ h with h | h | h
          · obtain ⟨hpl, rid, hrid, hrem⟩ := ihS cid out m h
            refine ⟨hpl, rid, hrid, ?_⟩
            rw [← hstep]
            exact hmono _ hrem
          · simp [isSpawnedEntry] at h
          · simp at h
        · intro n
          rw [r3, r4]
          have := ihC n
          by_cases hc : (Caller.ext cn : Caller) = Caller.ext n
          · have hcn : cn = n := by
              cases hc
              rfl
            subst hcn
            simp [List.count_append]
            omega
          · have hcn : ¬ cn = n := by
              intro hh
              exact hc (by rw [hh])
            rw [if_neg hc]
            rw [List.count_append]
            have hone : List.count n [cn] = 0 := by
              rw [List.count_singleton]
              simp [hcn]
            omega
    | inbound m =>
      have hregTok : (regTokens ([Ev.inbound m] : List (Ev Val))) = [] := rfl
      rw [hregTok, List.append_nil]
      cases hm : m.mid with
      | none =>
        have hstep : stepPM (runPM tr) (Ev.inbound m) =
            notifyIfMethod (runPM tr) m := handleMessage_nomid _ m hm
        rw [hstep] at hno ⊢
        cases hme : m.method with
        | none =>
          rw [notifyIfMethod_none _ m hme]
          exact ⟨ihT, ihR, ihS, ihC⟩
        | some x =>
          rw [notifyIfMethod_some _ m x hme]
          refine ⟨ihT, ?_, ?_, ?_⟩
          · intro rid cid why h
            rcases List.mem_append.mp h with h | h
            · exact ihR rid cid why h
            · simp at h
          · intro cid out m' h
            rcases List.mem_append.mp h with h | h
            · obtain ⟨hpl, rid, hrid, hrem⟩ := ihS cid out m' h
              exact ⟨hpl, rid, hrid, List.mem_append_left _ hrem⟩
            · simp at h
          · intro n
            unfold tableSettleCount
            rw [List.countP_append]
            have h1 : List.countP (isTableSettle n)
                ([Entry.notified m] : List (Entry Val)) = 0 := rfl
            have hpp : pendCount ({ runPM tr with
                log := (runPM tr).log ++ [Entry.notified m] } :
                  PMState Val).pending n = pendCount (runPM tr).pending n := rfl
            rw [h1, hpp]
            have := ihC n
            unfold tableSettleCount at this
            omega
      | some rid =>
        cases hl : lookupEntry (runPM tr).pending rid with
        | none =>
          have hstep : stepPM (runPM tr) (Ev.inbound m) =
              notifyIfMethod (runPM tr) m :=
            handleMessage_unmatched _ m rid hm hl
          rw [hstep] at hno ⊢
          cases hme : m.method with
          | none =>
            rw [notifyIfMethod_none _ m hme]
            exact ⟨ihT, ihR, ihS, ihC⟩
          | some x =>
            rw [notifyIfMethod_some _ m x hme]
            refine ⟨ihT, ?_, ?_, ?_⟩
            · intro rid' cid why h
              rcases List.mem_append.mp h with h | h
              · exact ihR rid' cid why h
              · simp at h
            · intro cid out m' h
              rcases List.mem_append.mp h with h | h
              · obtain ⟨hpl, rid', hrid, hrem⟩ := ihS cid out m' h
                exact ⟨hpl, rid', hrid, List.mem_append_left _ hrem⟩
              · simp at h
            · intro n
              unfold tableSettleCount
              rw [List.countP_append]
              have h1 : List.countP (isTableSettle n)
                  ([Entry.notified m] : List (Entry Val)) = 0 := rfl
              have hpp : pendCount ({ runPM tr with
                  log := (runPM tr).log ++ [Entry.notified m] } :
                    PMState Val).pending n = pendCount (runPM tr).pending n :=
                rfl
              rw [h1, hpp]
              have := ihC n
              unfold tableSettleCount at this
              omega
        | some cid =>
          have hstep : stepPM (runPM tr) (Ev.inbound m) = settleCall
              { runPM tr with
                pending := eraseKey (runPM tr).pending rid,
                timers := erasePair (runPM tr).timers (rid, cid),
                log := (runPM tr).log ++
                  [.removedRec rid cid .matchedResponse] }
              cid (payloadOf m) (.response m) :=
            handleMessage_matched _ m rid cid hm hl
          rw [hstep] at hno ⊢
          have hpend' : (settleCall
              { runPM tr with
                pending := eraseKey (runPM tr).pending rid,
                timers := erasePair (runPM tr).timers (rid, cid),
                log := (runPM tr).log ++
                  [.removedRec rid cid .matchedResponse] }
              cid (payloadOf m) (.response m)).pending =
              eraseKey (runPM tr).pending rid := (settleCall_fields _ _ _ _).1
          have htim' : (settleCall
              { runPM tr with
                pending := eraseKey (runPM tr).pending rid,
                timers := erasePair (runPM tr).timers (rid, cid),
                log := (runPM tr).log ++
                  [.removedRec rid cid .matchedResponse] }
              cid (payloadOf m) (.response m)).timers =
              erasePair (runPM tr).timers (rid, cid) :=
            (settleCall_fields _ _ _ _).2.1
          have hrem0 : Entry.removedRec rid cid RemCause.matchedResponse ∈
              (settleCall
                { runPM tr with
                  pending := eraseKey (runPM tr).pending rid,
                  timers := erasePair (runPM tr).timers (rid, cid),
                  log := (runPM tr).log ++
                    [.removedRec rid cid .matchedResponse] }
                cid (payloadOf m) (.response m)).log := by
            obtain ⟨t2, h2⟩ := settleCall_log_mono
              ({ runPM tr with
                 pending := eraseKey (runPM tr).pending rid,
                 timers := erasePair (runPM tr).timers (rid, cid),
                 log := (runPM tr).log ++
                   [.removedRec rid cid .matchedResponse] })
              cid (payloadOf m) (.response m)
            rw [h2]
            refine List.mem_append_left _ ?_
            simp
          refine ⟨?_, ?_, ?_, ?_⟩
          · rw [hpend', htim', ihT,
              eraseKey_eq_erasePair _ rid cid hnd hl]
          · intro rid' cid' why h
            rcases settleCall_log_mem _ _ _ _ _ h with h | h | h
            · rcases List.mem_append.mp h with h | h
              · exact ihR rid' cid' why h
              · rw [List.mem_singleton] at h
                cases h
                exact Or.inl rfl
            · simp at h
            · simp [isInitExtra] at h
          · intro cid' out m' h
            rcases settleCall_log_mem _ _ _ _ _ h with h | h | h
            · rcases List.mem_append.mp h with h | h
              · obtain ⟨hpl, rid', hrid, hrem⟩ := ihS cid' out m' h
                refine ⟨hpl, rid', hrid, ?_⟩
                rw [← hstep]
                exact hmono _ hrem
              · simp at h
            · rw [Entry.settled.injEq] at h
              obtain ⟨hc, ho, hw⟩ := h
              rw [SettleWhy.response.injEq] at hw
              subst hc
              subst hw
              subst ho
              exact ⟨rfl, rid, hm, hrem0⟩
            · cases hx : m'.mid <;>
              · exfalso
                cases cid' <;> simp [isInitExtra] at h
          · intro n
            have hcnt := settleCall_countP
              ({ runPM tr with
                 pending := eraseKey (runPM tr).pending rid,
                 timers := erasePair (runPM tr).timers (rid, cid),
                 log := (runPM tr).log ++
                   [.removedRec rid cid .matchedResponse] })
              cid (payloadOf m) (.response m) (isTableSettle n)
              (fun x hx => isTableSettle_initExtra n x hx)
            unfold tableSettleCount
            rw [hpend', hcnt]
            show List.countP (isTableSettle n)
                ((runPM tr).log ++ [Entry.removedRec rid cid
                  RemCause.matchedResponse]) +
              (if isTableSettle n (Entry.settled cid (payloadOf m)
                (SettleWhy.response m)) = true then 1 else 0) +
              pendCount (eraseKey (runPM tr).pending rid) n ≤ _
            rw [List.countP_append]
            have h1 : List.countP (isTableSettle n)
                ([Entry.removedRec rid cid RemCause.matchedResponse] :
                  List (Entry Val)) = 0 := rfl
            have hpc := countP_eraseKey (runPM tr).pending rid cid
              (fun q => decide (q.2 = Caller.ext n)) hl
            have hiff : (if isTableSettle n (Entry.settled cid (payloadOf m)
                (SettleWhy.response m)) = true then 1 else 0) =
                (if decide (cid = Caller.ext n) = true then (1 : Nat) else 0) := by
              rw [isTableSettle_response]
            have := ihC n
            unfold tableSettleCount at this
            unfold pendCount at this hpc ⊢
            rw [h1, hiff]
            simp only [decide_eq_true_eq] at hpc ⊢
            by_cases hc : cid = Caller.ext n <;> simp [hc] at hpc ⊢ <;> omega
    | fire rid cid =>
      have hregTok : (regTokens ([Ev.fire rid cid] : List (Ev Val))) = [] := rfl
      rw [hregTok, List.append_nil]
      by_cases hT : (rid, cid) ∈ (runPM tr).timers
      · have hmemP : (rid, cid) ∈ (runPM tr).pending := by
          rw [← ihT]
          exact hT
        have hl : lookupEntry (runPM tr).pending rid = some cid :=
          lookup_of_mem_nodup _ rid cid hnd hmemP
        have hstep : stepPM (runPM tr) (Ev.fire rid cid) = settleCall
            { runPM tr with
              timers := erasePair (runPM tr).timers (rid, cid),
              pending := eraseKey (runPM tr).pending rid,
              log := (runPM tr).log ++
                [.removedRec rid cid
                  (if cid = cid then .ownTimeout else .foreignTimeout)] }
            cid (.fail "Request timeout") .timedOut :=
          fireTimer_active _ rid cid cid hT hl
        rw [if_pos rfl] at hstep
        rw [hstep] at hno ⊢
        have hpend' := (settleCall_fields
          ({ runPM tr with
             timers := erasePair (runPM tr).timers (rid, cid),
             pending := eraseKey (runPM tr).pending rid,
             log := (runPM tr).log ++
               [.removedRec rid cid RemCause.ownTimeout] })
          cid (.fail "Request timeout") .timedOut).1
        have htim' := (settleCall_fields
          ({ runPM tr with
             timers := erasePair (runPM tr).timers (rid, cid),
             pending := eraseKey (runPM tr).pending rid,
             log := (runPM tr).log ++
               [.removedRec rid cid RemCause.ownTimeout] })
          cid (.fail "Request timeout") .timedOut).2.1
        refine ⟨?_, ?_, ?_, ?_⟩
        · rw [hpend', htim', ihT, eraseKey_eq_erasePair _ rid cid hnd hl]
        · intro rid' cid' why h
          rcases settleCall_log_mem _ _ _ _ _ h with h | h | h
          · rcases List.mem_append.mp h with h | h
            · exact ihR rid' cid' why h
            · rw [List.mem_singleton] at h
              cases h
              exact Or.inr (Or.inl rfl)
          · simp at h
          · simp [isInitExtra] at h
        · intro cid' out m' h
          rcases settleCall_log_mem _ _ _ _ _ h with h | h | h
          · rcases List.mem_append.mp h with h | h
            · obtain ⟨hpl, rid', hrid, hrem⟩ := ihS cid' out m' h
              refine ⟨hpl, rid', hrid, ?_⟩
              rw [← hstep]
              exact hmono _ hrem
            · simp at h
          · simp at h
          · exfalso
            cases cid' <;> simp [isInitExtra] at h
        · intro n
          have hcnt := settleCall_countP
            ({ runPM tr with
               timers := erasePair (runPM tr).timers (rid, cid),
               pending := eraseKey (runPM tr).pending rid,
               log := (runPM tr).log ++
                 [.removedRec rid cid RemCause.ownTimeout] })
            cid (.fail "Request timeout") .timedOut (isTableSettle n)
            (fun x hx => isTableSettle_initExtra n x hx)
          unfold tableSettleCount
          rw [hpend', hcnt]
          show List.countP (isTableSettle n)
              ((runPM tr).log ++ [Entry.removedRec rid cid
                RemCause.ownTimeout]) +
            (if isTableSettle n (Entry.settled cid
              (Outcome.fail "Request timeout") SettleWhy.timedOut) = true
              then 1 else 0) +
            pendCount (eraseKey (runPM tr).pending rid) n ≤ _
          rw [List.countP_append]
          have h1 : List.countP (isTableSettle n)
              ([Entry.removedRec rid cid RemCause.ownTimeout] :
                List (Entry Val)) = 0 := rfl
          have hpc := countP_eraseKey (runPM tr).pending rid cid
            (fun q => decide (q.2 = Caller.ext n)) hl
          have hiff : (if isTableSettle n ((Entry.settled cid
              (Outcome.fail "Request timeout") SettleWhy.timedOut) :
                Entry Val) = true
              then 1 else 0) =
              (if decide (cid = Caller.ext n) = true then (1 : Nat) else 0) := by
            rw [isTableSettle_timedOut]
          have := ihC n
          unfold tableSettleCount at this
          unfold pendCount at this hpc ⊢
          rw [h1, hiff]
          simp only [decide_eq_true_eq] at hpc ⊢
          by_cases hc : cid = Caller.ext n <;> simp [hc] at hpc ⊢ <;> omega
      · have hstep : stepPM (runPM tr) (Ev.fire rid cid) = runPM tr :=
          fireTimer_inactive _ rid cid hT
        rw [hstep]
        exact ⟨ihT, ihR, ihS, ihC⟩
    | procExit code signal =>
      have hregTok : (regTokens ([Ev.procExit code signal] : List (Ev Val))) = [] :=
        rfl
      rw [hregTok, List.append_nil]
      have hstep := processExit_eq (runPM tr) code signal
      rw [show stepPM (runPM tr) (Ev.procExit code signal) =
        processExitStep (runPM tr) code signal from rfl, hstep]
      have hpend' := (foldl_settle_fields (Outcome.fail (exitMsg code))
        (SettleWhy.exited code) (runPM tr).pending
        ({ runPM tr with
           alive := false, isInit := false, pending := [],
           timers := (runPM tr).timers.filter
             (fun t => ¬ t ∈ (runPM tr).pending),
           log := (runPM tr).log ++ (runPM tr).pending.map
             (fun p => .removedRec p.1 p.2 .processExit) })).1
      have htim' := (foldl_settle_fields (Outcome.fail (exitMsg code))
        (SettleWhy.exited code) (runPM tr).pending
        ({ runPM tr with
           alive := false, isInit := false, pending := [],
           timers := (runPM tr).timers.filter
             (fun t => ¬ t ∈ (runPM tr).pending),
           log := (runPM tr).log ++ (runPM tr).pending.map
             (fun p => .removedRec p.1 p.2 .processExit) })).2.1
      have htfilter : (runPM tr).timers.filter
          (fun t => ¬ t ∈ (runPM tr).pending) = [] := by
        rw [List.filter_eq_nil_iff]
        intro a ha
        rw [ihT] at ha
        simp [ha]
      refine ⟨?_, ?_, ?_, ?_⟩
      · rw [hpend', htim', htfilter]
      · intro rid' cid' why h
        rcases foldl_settle_mem _ _ _ _ _ h with h | h | h
        · rcases List.mem_append.mp h with h | h
          · exact ihR rid' cid' why h
          · obtain ⟨p, _, hp⟩ := List.mem_map.mp h
            cases hp
            exact Or.inr (Or.inr rfl)
        · obtain ⟨q, _, hq⟩ := h
          simp at hq
        · simp [isInitExtra] at h
      · intro cid' out m' h
        rcases foldl_settle_mem _ _ _ _ _ h with h | h | h
        · rcases List.mem_append.mp h with h | h
          · obtain ⟨hpl, rid', hrid, hrem⟩ := ihS cid' out m' h
            refine ⟨hpl, rid', hrid, ?_⟩
            rw [← hstep]
            exact hmono _ hrem
          · obtain ⟨p, _, hp⟩ := List.mem_map.mp h
            simp at hp
        · obtain ⟨q, _, hq⟩ := h
          simp at hq
        · exfalso
          cases cid' <;> simp [isInitExtra] at h
      · intro n
        have hcnt := foldl_settle_countP (Outcome.fail (exitMsg code))
          (SettleWhy.exited code) (runPM tr).pending (isTableSettle n)
          (fun x hx => isTableSettle_initExtra n x hx)
          ({ runPM tr with
             alive := false, isInit := false, pending := [],
             timers := (runPM tr).timers.filter
               (fun t => ¬ t ∈ (runPM tr).pending),
             log := (runPM tr).log ++ (runPM tr).pending.map
               (fun p => .removedRec p.1 p.2 .processExit) })
        unfold tableSettleCount
        rw [hpend', hcnt]
        show List.countP (isTableSettle n)
            ((runPM tr).log ++ (runPM tr).pending.map
              (fun p => Entry.removedRec p.1 p.2 RemCause.processExit)) +
          (runPM tr).pending.countP
            (fun q => isTableSettle n (Entry.settled q.2
              (Outcome.fail (exitMsg code)) (SettleWhy.exited code))) +
          pendCount [] n ≤ _
        rw [List.countP_append]
        have h1 : (((runPM tr).pending.map
            (fun p => Entry.removedRec p.1 p.2 RemCause.processExit)) :
              List (Entry Val)).countP
            (isTableSettle n) = 0 := by
          rw [List.countP_eq_zero]
          intro x hx
          obtain ⟨p, _, hp⟩ := List.mem_map.mp hx
          subst hp
          simp [isTableSettle]
        have h2 : (runPM tr).pending.countP
            (fun q => isTableSettle n ((Entry.settled q.2
              (Outcome.fail (exitMsg code)) (SettleWhy.exited code)) :
                Entry Val)) =
            pendCount (runPM tr).pending n := by
          unfold pendCount
          apply List.countP_congr
          intro q _
          rw [isTableSettle_exited]
        have := ihC n
        unfold tableSettleCount at this
        have h3 : pendCount ([] : List (RId × Caller)) n = 0 := rfl
        rw [h1, h2, h3]
        omega
    | callInit c =>
      have hregTok : (regTokens ([Ev.callInit c] : List (Ev Val))) = [] := rfl
      rw [hregTok, List.append_nil]
      cases hI : (runPM tr).isInit with
      | true =>
        rw [show stepPM (runPM tr) (Ev.callInit c) = runPM tr from
          initCall_inited _ c hI]
        exact ⟨ihT, ihR, ihS, ihC⟩
      | false =>
        cases hA : (runPM tr).attempt with
        | some kp =>
          rw [show stepPM (runPM tr) (Ev.callInit c) = _ from
            initCall_join _ c kp.1 kp.2 hI (by rw [hA])]
          refine ⟨ihT, ?_, ?_, ?_⟩
          · intro rid cid why h
            rcases List.mem_append.mp h with h | h
            · exact ihR rid cid why h
            · simp at h
          · intro cid out m' h
            rcases List.mem_append.mp h with h | h
            · obtain ⟨hpl, rid', hrid, hrem⟩ := ihS cid out m' h
              exact ⟨hpl, rid', hrid, List.mem_append_left _ hrem⟩
            · simp at h
          · intro n
            unfold tableSettleCount
            rw [List.countP_append]
            have h1 : List.countP (isTableSettle n)
                ([Entry.joinedInit (Caller.ext c) kp.1] :
                  List (Entry Val)) = 0 := rfl
            have := ihC n
            unfold tableSettleCount at this
            dsimp only
            omega
        | none =>
          rw [show stepPM (runPM tr) (Ev.callInit c) = _ from
            initCall_start _ c hI hA]
          refine ⟨ihT, ?_, ?_, ?_⟩
          · intro rid cid why h
            rcases List.mem_append.mp h with h | h
            · exact ihR rid cid why h
            · simp at h
          · intro cid out m' h
            rcases List.mem_append.mp h with h | h
            · obtain ⟨hpl, rid', hrid, hrem⟩ := ihS cid out m' h
              exact ⟨hpl, rid', hrid, List.mem_append_left _ hrem⟩
            · simp at h
          · intro n
            unfold tableSettleCount
            rw [List.countP_append]
            have h1 : List.countP (isTableSettle n)
                ([Entry.initStarted (runPM tr).nAttempts,
                  Entry.joinedInit (Caller.ext c) (runPM tr).nAttempts] :
                  List (Entry Val)) = 0 :=
              rfl
            have := ihC n
            unfold tableSettleCount at this
            dsimp only
            omega
    | initSendStep =>
      have hregTok : (regTokens ([Ev.initSendStep] : List (Ev Val))) = [] := rfl
      rw [hregTok, List.append_nil]
      cases hA : (runPM tr).attempt with
      | none =>
        rw [show stepPM (runPM tr) Ev.initSendStep = runPM tr from
          initDispatch_none _ hA]
        exact ⟨ihT, ihR, ihS, ihC⟩
      | some kp =>
        rcases kp with ⟨k, ph⟩
        cases ph with
        | sent =>
          rw [show stepPM (runPM tr) Ev.initSendStep = runPM tr from
            initDispatch_sent _ k hA]
          exact ⟨ihT, ihR, ihS, ihC⟩
        | preSend =>
          have hstep : stepPM (runPM tr) Ev.initSendStep =
              { dispatchRecord (ensureProc (runPM tr)) (.initOf k)
                  (RId.num 0) with attempt := some (k, .sent) } :=
            initDispatch_preSend _ k hA
          rw [hstep] at hno ⊢
          have hnoD : noOverwrite (dispatchRecord (ensureProc (runPM tr))
              (.initOf k) (RId.num 0)).log := hno
          obtain ⟨r1, r2, r3, r4⟩ := register_like (runPM tr)
            (ensureProc (runPM tr)) (.initOf k) (RId.num 0)
            (ensureProc_fields _).1 (ensureProc_fields _).2.1
            (ensureProc_log_cases _) hnoD ihT
          refine ⟨r1, ?_, ?_, ?_⟩
          · intro rid cid why h
            rcases r2 _ h with h | h | h
            · exact ihR rid cid why h
            · simp [isSpawnedEntry] at h
            · simp at h
          · intro cid out m' h
            rcases r2 _ h with h | h | h
            · obtain ⟨hpl, rid', hrid, hrem⟩ := ihS cid out m' h
              refine ⟨hpl, rid', hrid, ?_⟩
              rw [← hstep]
              exact hmono _ hrem
            · simp [isSpawnedEntry] at h
            · simp at h
          · intro n
            dsimp only
            unfold tableSettleCount at r3 ⊢
            rw [r3, r4]
            have hni : (if (Caller.initOf k : Caller) = Caller.ext n
                then (1 : Nat) else 0) = 0 := by
              rw [if_neg]
              intro hh
              cases hh
            have := ihC n
            unfold tableSettleCount at this
            omega

/-- Counterexample for C1: two concurrent `sendMessage` calls registering
the same caller-supplied identifier 7. `Map.set` silently replaces the
first record, so identifier 7 is removed from the table by the second
registration — not by its matching response, its timeout or process
exit — and the first caller is left with no table settle at all. -/
theorem correlation_overwrite_cex :
    Entry.removedRec (RId.num 7) (Caller.ext 1) RemCause.overwritten ∈
      (runPM trC1cex).log ∧
    lookupEntry (runPM trC1cex).pending (RId.num 7) = some (Caller.ext 2) ∧
    tableSettleCount (runPM trC1cex).log 1 = 0 := by
  decide

/-- C1 (amended): provided no registration silently overwrites a live
record — which holds in particular whenever identifiers are assigned
from the monotone counter — every response-settle delivers exactly the
payload of the inbound message whose identifier matches a removal of
that caller's record, every removal from the correlation table is by
matching response, own timeout or process exit, and a caller who
registers at most once is settled through the table at most once,
regardless of event interleaving. -/
theorem pm_correlation {Val : Type} (tr : List (Ev Val))
    (hno : noOverwrite (runPM tr).log) :
    (∀ cid out m,
      Entry.settled cid out (SettleWhy.response m) ∈ (runPM tr).log →
      out = payloadOf m ∧ ∃ rid, m.mid = some rid ∧
        Entry.removedRec rid cid RemCause.matchedResponse ∈ (runPM tr).log) ∧
    (∀ rid cid why, Entry.removedRec rid cid why ∈ (runPM tr).log →
      why = RemCause.matchedResponse ∨ why = RemCause.ownTimeout ∨
        why = RemCause.processExit) ∧
    (∀ n, (regTokens tr).count n ≤ 1 →
      tableSettleCount (runPM tr).log n +
        pendCount (runPM tr).pending n ≤ 1) := by
  obtain ⟨_, hR, hS, hC⟩ := pm_main tr hno
  refine ⟨hS, hR, ?_⟩
  intro n hn
  exact le_trans (hC n) hn

/-- Witness for `pm_correlation`: a single counter-assigned registration
and its matching response — no overwrite occurs, and caller 1 is settled
through the table exactly once with nothing left pending. -/
theorem pm_correlation_witness :
    noOverwrite (runPM trC1wit).log ∧
    (regTokens trC1wit).count 1 ≤ 1 ∧
    tableSettleCount (runPM trC1wit).log 1 +
      pendCount (runPM trC1wit).pending 1 ≤ 1 :=
  ⟨by unfold noOverwrite; decide, by decide,
   (pm_correlation trC1wit (by unfold noOverwrite; decide)).2.2 1 (by decide)⟩

end PlaywrightMCP
